import Mathlib

/-!
Shallow embedding of `mm/damon/paddr.c` (DAMON physical-address primitives
with the round-scoped deduplication cache), used to verify the claims of
the specification against the code.

Machine integers are modelled as `Nat` with explicit reductions modulo
`2^64` (`unsigned long`) or `2^32` (`unsigned int`) where overflow can
occur.  External collaborators (page lookup, rmap walk results, the
reclaim subsystem, the PRNG) are modelled as explicit parameters; the
control flow of the C functions is translated line by line.
-/

namespace DamonPA

/-- `PAGE_SHIFT` for the usual 4 KiB base page. -/
def PAGE_SHIFT : Nat := 12

/-- `PAGE_SIZE = 1 << PAGE_SHIFT`. -/
def PAGE_SIZE : Nat := 2 ^ PAGE_SHIFT

/-- `PHYS_PFN(addr)`: physical frame number of an address. -/
def PHYS_PFN (addr : Nat) : Nat := addr >>> PAGE_SHIFT

/-- `GOLDEN_RATIO_64` from `include/linux/hash.h`. -/
def goldenRatio64 : Nat := 0x61C8864680B583EB

/-- `DAMON_PA_CACHE_BITS` (256 entries). -/
def DAMON_PA_CACHE_BITS : Nat := 8

/-- `DAMON_PA_CACHE_SIZE = 1UL << DAMON_PA_CACHE_BITS`. -/
def DAMON_PA_CACHE_SIZE : Nat := 2 ^ DAMON_PA_CACHE_BITS

/-- `DAMON_PA_CACHE_PROBES`: linear-probe window length. -/
def DAMON_PA_CACHE_PROBES : Nat := 4

/-- `hash_long(val, DAMON_PA_CACHE_BITS)` on a 64-bit machine:
`(val * GOLDEN_RATIO_64) >> (64 - bits)`, the multiplication taken
modulo `2^64`. -/
def hash_long (val : Nat) : Nat :=
  ((val * goldenRatio64) % 2 ^ 64) >>> (64 - DAMON_PA_CACHE_BITS)

/-- Index of probe `i` for frame `pfn`: `(hash + i) & (SIZE - 1)`. -/
def cacheIdx (pfn i : Nat) : Nat :=
  (hash_long pfn + i) % DAMON_PA_CACHE_SIZE

/-- `struct damon_pa_cache_ent`. -/
structure CacheEnt where
  gen : Nat
  pfn : Nat
  page_sz : Nat
  accessed : Bool
  mkold_done : Bool
deriving DecidableEq, Repr, Inhabited

/-- The zero-initialised entry of the static array. -/
def zeroEnt : CacheEnt :=
  { gen := 0, pfn := 0, page_sz := 0, accessed := false, mkold_done := false }

/-- The cache: the static entry array plus `damon_pa_cache_gen`. -/
structure CacheState where
  slots : List CacheEnt
  gen : Nat
deriving DecidableEq, Repr

/-- The zero-initialised static state at module load. -/
def initCache : CacheState :=
  { slots := List.replicate DAMON_PA_CACHE_SIZE zeroEnt, gen := 0 }

/-- Probe loop of `damon_pa_cache_lookup` over the remaining probe
offsets (`for (i = 0; i < DAMON_PA_CACHE_PROBES; i++)`): skip entries
whose generation is not current, return the first live entry whose
`pfn` matches. -/
def lookupProbes (s : CacheState) (pfn : Nat) : List Nat → Option CacheEnt
  | [] => none
  | i :: rest =>
    let e := s.slots.getD (cacheIdx pfn i) zeroEnt
    if e.gen ≠ s.gen then lookupProbes s pfn rest
    else if e.pfn = pfn then some e
    else lookupProbes s pfn rest

/-- `damon_pa_cache_lookup`. -/
def damon_pa_cache_lookup (s : CacheState) (pfn : Nat) : Option CacheEnt :=
  lookupProbes s pfn (List.range DAMON_PA_CACHE_PROBES)

/-- Probe loop of `damon_pa_cache_get_slot` over the remaining probe
offsets: return the index of the first stale slot in the window; if
the window is fully live, the first slot of the window (the C
fall-through `return &damon_pa_cache[idx & (DAMON_PA_CACHE_SIZE - 1)]`). -/
def getSlotProbes (s : CacheState) (pfn : Nat) : List Nat → Nat
  | [] => cacheIdx pfn 0
  | i :: rest =>
    if (s.slots.getD (cacheIdx pfn i) zeroEnt).gen ≠ s.gen then cacheIdx pfn i
    else getSlotProbes s pfn rest

/-- `damon_pa_cache_get_slot` (returns the chosen slot index). -/
def damon_pa_cache_get_slot (s : CacheState) (pfn : Nat) : Nat :=
  getSlotProbes s pfn (List.range DAMON_PA_CACHE_PROBES)

/-- Store entry `e` in slot `j`. -/
def writeSlot (s : CacheState) (j : Nat) (e : CacheEnt) : CacheState :=
  { s with slots := s.slots.set j e }

/-- `damon_pa_cache_round_begin`: increment the generation (a 64-bit
`unsigned long`, so wrapping modulo `2^64`) and skip the reserved
value `0`. -/
def damon_pa_cache_round_begin (s : CacheState) : CacheState :=
  let g := (s.gen + 1) % 2 ^ 64
  { s with gen := if g = 0 then 1 else g }

/-- What the external page subsystem reports for one frame whose
`struct page` exists (`damon_get_page` succeeded). -/
structure PageInfo where
  /-- `page_mapped(page)` -/
  mapped : Bool
  /-- `page_rmapping(page)` -/
  rmapping : Bool
  /-- `page_is_idle(page)` -/
  idle : Bool
  /-- `!PageAnon(page) || PageKsm(page)`: the rmap walk needs the page lock. -/
  needLock : Bool
  /-- `trylock_page(page)` succeeds -/
  lockOk : Bool
  /-- accessed bit reported by the rmap walk (`__damon_pa_young`) -/
  walkAccessed : Bool
  /-- mapping size reported by the rmap walk (`PAGE_SIZE` or a huge size) -/
  walkSz : Nat
deriving DecidableEq, Repr

/-- The external frame subsystem: `damon_get_page` by frame number.
`none` models a frame with no valid page. -/
structure PageModel where
  getPage : Nat → Option PageInfo

/-- Body of `damon_pa_young` as a function of the frame number (the
address enters `damon_pa_young` only through `PHYS_PFN`). -/
def youngOnPfn (pm : PageModel) (pfn : Nat) : Bool × Nat :=
  match pm.getPage pfn with
  | none => (false, PAGE_SIZE)
  | some pg =>
    if ¬ pg.mapped ∨ ¬ pg.rmapping then
      (! pg.idle, PAGE_SIZE)
    else if pg.needLock ∧ ¬ pg.lockOk then
      (false, PAGE_SIZE)
    else
      (pg.walkAccessed, pg.walkSz)

/-- `damon_pa_young(paddr, &page_sz)`: returns `(accessed, *page_sz)`.
On the `!page` early return the out-parameter is untouched, and the
caller initialised it to `PAGE_SIZE`, so that branch yields
`(false, PAGE_SIZE)`. -/
def damon_pa_young (pm : PageModel) (paddr : Nat) : Bool × Nat :=
  youngOnPfn pm (PHYS_PFN paddr)

/-- `struct damon_region`: address range, sample address, counter. -/
structure Region where
  ar_start : Nat
  ar_end : Nat
  sampling_addr : Nat
  nr_accesses : Nat
deriving DecidableEq, Repr

/-- State threaded through the engine: the cache, the PRNG cursor, the
log of oracle invocations (frame numbers passed to `damon_pa_mkold`
and `damon_pa_young`), and the log of the `accessed` value used for
each visited region during the check phase. -/
structure MonState where
  cache : CacheState
  rngIdx : Nat
  mkoldCalls : List Nat
  youngCalls : List Nat
  accLog : List Bool
deriving Repr

/-- `damon_rand(l, r)`: a pseudo-random address in `[l, r)`, modelled
as `l + (rng k) % (r - l)` for the `k`-th draw of an injected
stream `rng`. -/
def damon_rand (rng : Nat → Nat) (k l r : Nat) : Nat :=
  l + rng k % (r - l)

/-- The prepare-phase deduplication test `e && e->mkold_done` on the
result of `damon_pa_cache_lookup`. -/
def damon_pa_mkold_hit (s : CacheState) (pfn : Nat) : Bool :=
  match damon_pa_cache_lookup s pfn with
  | some e => e.mkold_done
  | none => false

/-- `__damon_pa_prepare_access_check`: pick the sample address, and
mark its frame cold unless a live cache entry already records the
cold-marking; after calling `damon_pa_mkold`, claim a slot and record
`gen/pfn/page_sz=0/accessed=false/mkold_done=true`. -/
def __damon_pa_prepare_access_check (rng : Nat → Nat) (st : MonState)
    (r : Region) : MonState × Region :=
  let addr := damon_rand rng st.rngIdx r.ar_start r.ar_end
  let r1 := { r with sampling_addr := addr }
  let pfn := PHYS_PFN addr
  let st1 := { st with rngIdx := st.rngIdx + 1 }
  if damon_pa_mkold_hit st1.cache pfn then (st1, r1)
  else
    let st2 := { st1 with mkoldCalls := st1.mkoldCalls ++ [pfn] }
    let j := damon_pa_cache_get_slot st2.cache pfn
    let ent : CacheEnt :=
      { gen := st2.cache.gen, pfn := pfn, page_sz := 0,
        accessed := false, mkold_done := true }
    ({ st2 with cache := writeSlot st2.cache j ent }, r1)

/-- Prepare pass over the regions of one target. -/
def prepareRegions (rng : Nat → Nat) (st : MonState) :
    List Region → MonState × List Region
  | [] => (st, [])
  | r :: rs =>
    let (st1, r1) := __damon_pa_prepare_access_check rng st r
    let (st2, rs1) := prepareRegions rng st1 rs
    (st2, r1 :: rs1)

/-- Prepare pass over the targets. -/
def prepareTargets (rng : Nat → Nat) (st : MonState) :
    List (List Region) → MonState × List (List Region)
  | [] => (st, [])
  | t :: ts =>
    let (st1, t1) := prepareRegions rng st t
    let (st2, ts1) := prepareTargets rng st1 ts
    (st2, t1 :: ts1)

/-- `damon_pa_prepare_access_checks`: begin the cache round, then visit
every region of every target. -/
def damon_pa_prepare_access_checks (rng : Nat → Nat) (st : MonState)
    (ts : List (List Region)) : MonState × List (List Region) :=
  let st0 := { st with cache := damon_pa_cache_round_begin st.cache }
  prepareTargets rng st0 ts

/-- The check-phase fast-path test `e && e->page_sz` on the result of
`damon_pa_cache_lookup`: `some accessed` when a live entry with
resolved hotness exists, else `none`. -/
def damon_pa_check_fast (s : CacheState) (pfn : Nat) : Option Bool :=
  match damon_pa_cache_lookup s pfn with
  | some e => if e.page_sz ≠ 0 then some e.accessed else none
  | none => none

/-- `__damon_pa_check_access`: fast path on a live entry with resolved
hotness (`page_sz ≠ 0`); otherwise call `damon_pa_young`, store the
result under the sample frame, propagate it to the base-aligned frame
of a huge mapping, and bump `nr_accesses` (a 32-bit counter) when
accessed.  Also returns the `accessed` value used. -/
def __damon_pa_check_access (pm : PageModel) (st : MonState)
    (r : Region) : MonState × Region × Bool :=
  let pfn := PHYS_PFN r.sampling_addr
  match damon_pa_check_fast st.cache pfn with
  | some accessed =>
    ({ st with accLog := st.accLog ++ [accessed] },
     if accessed then
       { r with nr_accesses := (r.nr_accesses + 1) % 2 ^ 32 }
     else r, accessed)
  | none =>
    let res := damon_pa_young pm r.sampling_addr
    let accessed := res.1
    let page_sz := res.2
    let st1 := { st with youngCalls := st.youngCalls ++ [pfn] }
    let j := damon_pa_cache_get_slot st1.cache pfn
    let ent : CacheEnt :=
      { gen := st1.cache.gen, pfn := pfn, page_sz := page_sz,
        accessed := accessed, mkold_done := true }
    let st2 := { st1 with cache := writeSlot st1.cache j ent }
    let st3 :=
      if PAGE_SIZE < page_sz then
        let npages := page_sz >>> PAGE_SHIFT
        let base_pfn := Nat.land pfn (2 ^ 64 - npages)
        let j2 := damon_pa_cache_get_slot st2.cache base_pfn
        let ent2 : CacheEnt :=
          { gen := st2.cache.gen, pfn := base_pfn, page_sz := page_sz,
            accessed := accessed, mkold_done := true }
        { st2 with cache := writeSlot st2.cache j2 ent2 }
      else st2
    ({ st3 with accLog := st3.accLog ++ [accessed] },
     if accessed then
       { r with nr_accesses := (r.nr_accesses + 1) % 2 ^ 32 }
     else r, accessed)

/-- Check pass over the regions of one target, threading the running
`max_nr_accesses` accumulator exactly as the C loop does. -/
def checkRegions (pm : PageModel) (st : MonState) (mx : Nat) :
    List Region → MonState × List Region × Nat
  | [] => (st, [], mx)
  | r :: rs =>
    let (st1, r1, _) := __damon_pa_check_access pm st r
    let mx1 := max r1.nr_accesses mx
    let (st2, rs1, mx2) := checkRegions pm st1 mx1 rs
    (st2, r1 :: rs1, mx2)

/-- Check pass over the targets. -/
def checkTargets (pm : PageModel) (st : MonState) (mx : Nat) :
    List (List Region) → MonState × List (List Region) × Nat
  | [] => (st, [], mx)
  | t :: ts =>
    let (st1, t1, mx1) := checkRegions pm st mx t
    let (st2, ts1, mx2) := checkTargets pm st1 mx1 ts
    (st2, t1 :: ts1, mx2)

/-- `damon_pa_check_accesses`: visit every region, returning the
maximum `nr_accesses` seen. -/
def damon_pa_check_accesses (pm : PageModel) (st : MonState)
    (ts : List (List Region)) : MonState × List (List Region) × Nat :=
  checkTargets pm st 0 ts

/-- The initial engine state: zeroed static cache, fresh logs. -/
def initState : MonState :=
  { cache := initCache, rngIdx := 0, mkoldCalls := [], youngCalls := [],
    accLog := [] }

/-! ## The reclaim executor (`damon_pa_apply_scheme`) -/

/-- `enum damos_action` as used by this backend. -/
inductive DamosAction where
  | willneed
  | cold
  | pageout
  | hugepage
  | nohugepage
  | stat
deriving DecidableEq, Repr

/-- What the LRU subsystem reports for a frame during the eviction
scan, when `damon_get_page` succeeds. -/
structure LruPageInfo where
  /-- `isolate_lru_page(page)` returns 0 (success) -/
  isolateOk : Bool
  /-- `PageUnevictable(page)` -/
  unevictable : Bool
deriving DecidableEq, Repr

/-- External services used by the eviction scan: page lookup by frame
number and the batch reclaim (`reclaim_pages`, returning how many of
the handed-over frames were reclaimed). -/
structure SchemeModel where
  getPage : Nat → Option LruPageInfo
  reclaim_pages : List Nat → Nat

/-- Observable calls made by `damon_pa_apply_scheme`, in order. -/
inductive SchemeEvent where
  /-- `damon_get_page(PHYS_PFN(addr))` -/
  | getPageCall (pfn : Nat)
  /-- `ClearPageReferenced` + `test_and_clear_page_young` -/
  | clearRef (pfn : Nat)
  /-- `isolate_lru_page(page)` -/
  | isolateCall (pfn : Nat)
  /-- `putback_lru_page(page)` -/
  | putback (pfn : Nat)
  /-- `reclaim_pages(&page_list)` -/
  | reclaimCall (pfns : List Nat)
  /-- `cond_resched()` -/
  | resched
deriving DecidableEq, Repr

/-- Iterations of `for (addr = start; addr < stop; addr += PAGE_SIZE)`,
driven by a structural fuel that bounds the iteration count (one byte
of `stop - start` per iteration is more than enough since
`PAGE_SIZE ≥ 1`). -/
def scanIter (stop : Nat) : Nat → Nat → List Nat
  | 0, _ => []
  | fuel + 1, addr =>
    if addr < stop then addr :: scanIter stop fuel (addr + PAGE_SIZE)
    else []

/-- The address sequence of `for (addr = start; addr < stop; addr += PAGE_SIZE)`. -/
def scanAddrs (start stop : Nat) : List Nat :=
  scanIter stop (stop - start) start

/-- Loop body of the eviction scan: per address, look the frame up,
clear its referenced signals, try to isolate it, and either put it
back (unevictable) or prepend it to the page list (`list_add`).
Returns the chronological event trace of the scan together with the
final page list. -/
def scanLoop (m : SchemeModel) : List Nat → List Nat →
    List SchemeEvent × List Nat
  | [], pl => ([], pl)
  | a :: rest, pl =>
    let pfn := PHYS_PFN a
    match m.getPage pfn with
    | none =>
      let res := scanLoop m rest pl
      (SchemeEvent.getPageCall pfn :: res.1, res.2)
    | some pg =>
      if ¬ pg.isolateOk then
        let res := scanLoop m rest pl
        (SchemeEvent.getPageCall pfn :: SchemeEvent.clearRef pfn ::
          SchemeEvent.isolateCall pfn :: res.1, res.2)
      else if pg.unevictable then
        let res := scanLoop m rest pl
        (SchemeEvent.getPageCall pfn :: SchemeEvent.clearRef pfn ::
          SchemeEvent.isolateCall pfn :: SchemeEvent.putback pfn :: res.1,
         res.2)
      else
        let res := scanLoop m rest (pfn :: pl)
        (SchemeEvent.getPageCall pfn :: SchemeEvent.clearRef pfn ::
          SchemeEvent.isolateCall pfn :: res.1, res.2)

/-- Result of `damon_pa_apply_scheme`: returned byte count, the event
trace, and the batch handed to `reclaim_pages`. -/
structure ApplyResult where
  bytes : Nat
  events : List SchemeEvent
  batch : List Nat
deriving DecidableEq, Repr

/-- `damon_pa_apply_scheme`: any action other than `DAMOS_PAGEOUT`
returns 0 immediately; for `DAMOS_PAGEOUT`, scan the region one base
page at a time, batch-reclaim the isolated frames, make one
`cond_resched()` call, and return `applied * PAGE_SIZE`. -/
def damon_pa_apply_scheme (m : SchemeModel) (r : Region)
    (action : DamosAction) : ApplyResult :=
  if action ≠ DamosAction.pageout then
    { bytes := 0, events := [], batch := [] }
  else
    let scan := scanLoop m (scanAddrs r.ar_start r.ar_end) []
    let applied := m.reclaim_pages scan.2
    { bytes := applied * PAGE_SIZE,
      events := scan.1 ++ [SchemeEvent.reclaimCall scan.2, SchemeEvent.resched],
      batch := scan.2 }

/-- Number of `cond_resched()` calls in a trace. -/
def countResched (evs : List SchemeEvent) : Nat :=
  (evs.filter (fun e => e = SchemeEvent.resched)).length

/-- Whether an event is not the batch hand-over to `reclaim_pages`. -/
def isNotReclaim : SchemeEvent → Bool
  | SchemeEvent.reclaimCall _ => false
  | _ => true

/-- The part of a trace before the batch hand-over to `reclaim_pages`
(the per-frame scan portion). -/
def scanPortion (evs : List SchemeEvent) : List SchemeEvent :=
  evs.takeWhile isNotReclaim

/-! ## Probe-window lemmas -/

/-- The entry at probe position `k` of `pfn`'s window. -/
def slotAt (s : CacheState) (pfn k : Nat) : CacheEnt :=
  s.slots.getD (cacheIdx pfn k) zeroEnt

/-- Probe `k` of `pfn`'s window holds a live entry for `pfn`. -/
def entMatches (s : CacheState) (pfn k : Nat) : Prop :=
  (slotAt s pfn k).gen = s.gen ∧ (slotAt s pfn k).pfn = pfn

theorem lookupProbes_some_elim (s : CacheState) (pfn : Nat) :
    ∀ l e, lookupProbes s pfn l = some e →
      ∃ i, i ∈ l ∧ e = slotAt s pfn i ∧ entMatches s pfn i := by
  intro l
  induction l with
  | nil => intro e h; simp [lookupProbes] at h
  | cons i rest ih =>
    intro e h
    rw [lookupProbes] at h
    by_cases hg : (s.slots.getD (cacheIdx pfn i) zeroEnt).gen = s.gen
    · by_cases hp : (s.slots.getD (cacheIdx pfn i) zeroEnt).pfn = pfn
      · simp only [ne_eq, hg, hp, not_true_eq_false, if_false, if_true] at h
        refine ⟨i, List.mem_cons_self i rest, ?_, hg, hp⟩
        simp only [slotAt]
        exact (Option.some.inj h).symm
      · simp only [ne_eq, hg, hp, not_true_eq_false, if_false] at h
        obtain ⟨k, hk1, hk2, hk3⟩ := ih e h
        exact ⟨k, List.mem_cons_of_mem i hk1, hk2, hk3⟩
    · simp only [ne_eq, hg, not_false_eq_true, if_true] at h
      obtain ⟨k, hk1, hk2, hk3⟩ := ih e h
      exact ⟨k, List.mem_cons_of_mem i hk1, hk2, hk3⟩

/-- A successful lookup returns the contents of some probe slot that
holds a live entry for the frame. -/
theorem lookup_some_elim (s : CacheState) (pfn : Nat) (e : CacheEnt)
    (h : damon_pa_cache_lookup s pfn = some e) :
    ∃ k, k < DAMON_PA_CACHE_PROBES ∧ e = slotAt s pfn k ∧
      entMatches s pfn k := by
  obtain ⟨k, hk1, hk2, hk3⟩ := lookupProbes_some_elim s pfn _ e h
  exact ⟨k, List.mem_range.mp hk1, hk2, hk3⟩

theorem lookupProbes_eq_none (s : CacheState) (pfn : Nat) :
    ∀ l, lookupProbes s pfn l = none ↔ ∀ i, i ∈ l → ¬ entMatches s pfn i := by
  intro l
  induction l with
  | nil => simp [lookupProbes]
  | cons i rest ih =>
    rw [lookupProbes]
    by_cases hg : (s.slots.getD (cacheIdx pfn i) zeroEnt).gen = s.gen
    · by_cases hp : (s.slots.getD (cacheIdx pfn i) zeroEnt).pfn = pfn
      · simp only [ne_eq, hg, hp, not_true_eq_false, if_false, if_true]
        constructor
        · intro h; exact absurd h (by simp)
        · intro h
          exact absurd ⟨hg, hp⟩ (h i (List.mem_cons_self i rest))
      · simp only [ne_eq, hg, hp, not_true_eq_false, if_false, ih]
        constructor
        · intro h k hk
          rcases List.mem_cons.mp hk with rfl | hk2
          · exact fun hm => hp hm.2
          · exact h k hk2
        · intro h k hk
          exact h k (List.mem_cons_of_mem i hk)
    · simp only [ne_eq, hg, not_false_eq_true, if_true, ih]
      constructor
      · intro h k hk
        rcases List.mem_cons.mp hk with rfl | hk2
        · exact fun hm => hg hm.1
        · exact h k hk2
      · intro h k hk
        exact h k (List.mem_cons_of_mem i hk)

/-- If no probe slot holds a live entry for the frame, lookup misses. -/
theorem lookup_eq_none_of (s : CacheState) (pfn : Nat)
    (h : ∀ k, k < DAMON_PA_CACHE_PROBES → ¬ entMatches s pfn k) :
    damon_pa_cache_lookup s pfn = none :=
  (lookupProbes_eq_none s pfn _).mpr (fun i hi => h i (List.mem_range.mp hi))

/-- A missed lookup means no probe slot holds a live entry. -/
theorem lookup_none_elim (s : CacheState) (pfn : Nat)
    (h : damon_pa_cache_lookup s pfn = none) :
    ∀ k, k < DAMON_PA_CACHE_PROBES → ¬ entMatches s pfn k :=
  fun k hk =>
    (lookupProbes_eq_none s pfn _).mp h k (List.mem_range.mpr hk)

/-- A live matching entry at probe 0 is returned by lookup. -/
theorem lookup_first_hit (s : CacheState) (pfn : Nat)
    (h : entMatches s pfn 0) :
    damon_pa_cache_lookup s pfn = some (slotAt s pfn 0) := by
  obtain ⟨hg, hp⟩ := h
  simp only [slotAt] at hg hp ⊢
  rw [damon_pa_cache_lookup,
    show List.range DAMON_PA_CACHE_PROBES = 0 :: [1, 2, 3] from rfl,
    lookupProbes]
  simp only [ne_eq, hg, hp, not_true_eq_false, if_false, if_true]

theorem getSlotProbes_window (s : CacheState) (pfn : Nat) :
    ∀ l, (∀ i, i ∈ l → i < DAMON_PA_CACHE_PROBES) →
      ∃ k, k < DAMON_PA_CACHE_PROBES ∧
        getSlotProbes s pfn l = cacheIdx pfn k := by
  intro l
  induction l with
  | nil =>
    intro _
    refine ⟨0, by simp [DAMON_PA_CACHE_PROBES], rfl⟩
  | cons i rest ih =>
    intro hmem
    rw [getSlotProbes]
    by_cases hg : (s.slots.getD (cacheIdx pfn i) zeroEnt).gen = s.gen
    · simp only [ne_eq, hg, not_true_eq_false, if_false]
      exact ih (fun k hk => hmem k (List.mem_cons_of_mem i hk))
    · simp only [ne_eq, hg, not_false_eq_true, if_true]
      exact ⟨i, hmem i (List.mem_cons_self i rest), rfl⟩

/-- The claimed slot always lies inside the frame's probe window. -/
theorem get_slot_in_window (s : CacheState) (pfn : Nat) :
    ∃ k, k < DAMON_PA_CACHE_PROBES ∧
      damon_pa_cache_get_slot s pfn = cacheIdx pfn k :=
  getSlotProbes_window s pfn _ (fun _ hi => List.mem_range.mp hi)

/-- With a stale slot at probe 0, the claim returns probe 0's index. -/
theorem get_slot_stale0 (s : CacheState) (pfn : Nat)
    (h : (slotAt s pfn 0).gen ≠ s.gen) :
    damon_pa_cache_get_slot s pfn = cacheIdx pfn 0 := by
  simp only [slotAt, ne_eq] at h
  rw [damon_pa_cache_get_slot,
    show List.range DAMON_PA_CACHE_PROBES = 0 :: [1, 2, 3] from rfl,
    getSlotProbes]
  simp only [ne_eq, h, not_false_eq_true, if_true]

/-- Reading the slot array after a write. -/
theorem getD_writeSlot (s : CacheState) (j i : Nat) (e : CacheEnt) :
    (writeSlot s j e).slots.getD i zeroEnt =
      if j = i ∧ j < s.slots.length then e else s.slots.getD i zeroEnt := by
  simp only [writeSlot]
  rcases eq_or_ne j i with rfl | hne
  · by_cases hlt : j < s.slots.length
    · simp [List.getD, List.getElem?_set, hlt]
    · rw [List.set_eq_of_length_le (le_of_not_lt hlt)]
      simp [hlt]
  · simp [List.getD, List.getElem?_set, hne]

theorem writeSlot_gen (s : CacheState) (j : Nat) (e : CacheEnt) :
    (writeSlot s j e).gen = s.gen := rfl

/-- Every slot of the zero-initialised array reads as `zeroEnt`. -/
theorem getD_initSlots (i : Nat) :
    ((List.replicate DAMON_PA_CACHE_SIZE zeroEnt).getD i zeroEnt) = zeroEnt := by
  rcases lt_or_ge i DAMON_PA_CACHE_SIZE with hlt | hge
  · simp [List.getD, List.getElem?_replicate, hlt]
  · have hni : ¬ i < DAMON_PA_CACHE_SIZE := by omega
    simp [List.getD, List.getElem?_replicate, hni]

/-- The probe index is always below the table size. -/
theorem cacheIdx_lt (pfn i : Nat) : cacheIdx pfn i < DAMON_PA_CACHE_SIZE := by
  have : 0 < DAMON_PA_CACHE_SIZE := by simp [DAMON_PA_CACHE_SIZE]
  exact Nat.mod_lt _ this

/-! ## Concrete fixtures for witnesses and counterexamples -/

/-- A one-page region pinned to frame `p`: every sample address drawn
inside `[p*PAGE_SIZE, (p+1)*PAGE_SIZE)` has frame number `p`. -/
def pinnedRegion (p : Nat) : Region :=
  { ar_start := p * PAGE_SIZE, ar_end := (p + 1) * PAGE_SIZE,
    sampling_addr := 0, nr_accesses := 0 }

/-- A fixed PRNG stream. -/
def rngZero : Nat → Nat := fun _ => 0

/-- A frame model with no valid pages at all. -/
def pmNone : PageModel := { getPage := fun _ => none }

/-- An LRU model where every frame has an isolatable, evictable page. -/
def lruAll : SchemeModel :=
  { getPage := fun _ => some { isolateOk := true, unevictable := false },
    reclaim_pages := fun l => l.length }

/-! ## Scan-loop lemmas for the reclaim executor -/

theorem scanLoop_events_shape (m : SchemeModel) :
    ∀ addrs pl e, e ∈ (scanLoop m addrs pl).1 →
      e ≠ SchemeEvent.resched ∧ isNotReclaim e = true := by
  intro addrs
  induction addrs with
  | nil => intro pl e h; simp [scanLoop] at h
  | cons a rest ih =>
    intro pl e h
    rw [scanLoop] at h
    cases hpg : m.getPage (PHYS_PFN a) with
    | none =>
      rw [hpg] at h
      simp only [List.mem_cons] at h
      rcases h with rfl | h2
      · exact ⟨by simp, by simp [isNotReclaim]⟩
      · exact ih pl e h2
    | some pg =>
      rw [hpg] at h
      by_cases h1 : pg.isolateOk
      · by_cases h2 : pg.unevictable
        · simp [h1, h2, List.mem_cons] at h
          rcases h with rfl | rfl | rfl | rfl | h4
          · exact ⟨by simp, by simp [isNotReclaim]⟩
          · exact ⟨by simp, by simp [isNotReclaim]⟩
          · exact ⟨by simp, by simp [isNotReclaim]⟩
          · exact ⟨by simp, by simp [isNotReclaim]⟩
          · exact ih pl e h4
        · simp [h1, h2, List.mem_cons] at h
          rcases h with rfl | rfl | rfl | h4
          · exact ⟨by simp, by simp [isNotReclaim]⟩
          · exact ⟨by simp, by simp [isNotReclaim]⟩
          · exact ⟨by simp, by simp [isNotReclaim]⟩
          · exact ih _ e h4
      · simp [h1, List.mem_cons] at h
        rcases h with rfl | rfl | rfl | h4
        · exact ⟨by simp, by simp [isNotReclaim]⟩
        · exact ⟨by simp, by simp [isNotReclaim]⟩
        · exact ⟨by simp, by simp [isNotReclaim]⟩
        · exact ih pl e h4

theorem countResched_scanLoop (m : SchemeModel) (addrs pl : List Nat) :
    countResched (scanLoop m addrs pl).1 = 0 := by
  simp only [countResched, List.length_eq_zero, List.filter_eq_nil_iff]
  intro e he
  have h := (scanLoop_events_shape m addrs pl e he).1
  simp [h]

theorem takeWhile_append_all {α : Type} (p : α → Bool) :
    ∀ l1 l2 : List α, (∀ e ∈ l1, p e = true) →
      (l1 ++ l2).takeWhile p = l1 ++ l2.takeWhile p := by
  intro l1
  induction l1 with
  | nil => intro l2 _; simp
  | cons x rest ih =>
    intro l2 h
    rw [List.cons_append, List.takeWhile_cons, h x (List.mem_cons_self x rest)]
    rw [ih l2 (fun e he => h e (List.mem_cons_of_mem x he))]
    simp [List.takeWhile_cons, h x (List.mem_cons_self x rest)]

/-- The scan portion of a pageout trace is exactly the scan loop's
event list (everything before the `reclaim_pages` hand-over). -/
theorem scanPortion_apply_scheme (m : SchemeModel) (r : Region) :
    scanPortion (damon_pa_apply_scheme m r DamosAction.pageout).events =
      (scanLoop m (scanAddrs r.ar_start r.ar_end) []).1 := by
  simp only [damon_pa_apply_scheme, ne_eq, not_true_eq_false, if_false,
    ite_false, ite_true, not_false_eq_true, if_true]
  rw [scanPortion,
    takeWhile_append_all isNotReclaim _ _
      (fun e he => (scanLoop_events_shape m _ _ e he).2)]
  simp [List.takeWhile_cons, isNotReclaim]

/-- A region spanning 16 base pages starting at address 0. -/
def region16 : Region :=
  { ar_start := 0, ar_end := 16 * PAGE_SIZE, sampling_addr := 0,
    nr_accesses := 0 }

/-! ## Claims -/

/-- **C9**: for every region and every scheme action other than
`DAMOS_PAGEOUT`, `damon_pa_apply_scheme` returns 0 reclaimed bytes and
performs no frame lookups, no reference clearing and no isolation
calls (its event trace is empty); for `DAMOS_PAGEOUT` it returns the
count reported by `reclaim_pages` multiplied by `PAGE_SIZE`. -/
theorem apply_scheme_action_dispatch (m : SchemeModel) (r : Region)
    (a : DamosAction) :
    (a ≠ DamosAction.pageout →
      damon_pa_apply_scheme m r a =
        { bytes := 0, events := [], batch := [] }) ∧
    (damon_pa_apply_scheme m r DamosAction.pageout).bytes =
      m.reclaim_pages (damon_pa_apply_scheme m r DamosAction.pageout).batch *
        PAGE_SIZE := by
  constructor
  · intro h
    simp [damon_pa_apply_scheme, h]
  · simp [damon_pa_apply_scheme]

/-- Witness for `apply_scheme_action_dispatch` at a concrete model,
region and non-pageout action. -/
theorem apply_scheme_action_dispatch_witness :
    damon_pa_apply_scheme lruAll region16 DamosAction.stat =
      { bytes := 0, events := [], batch := [] } ∧
    (damon_pa_apply_scheme lruAll region16 DamosAction.pageout).bytes =
      lruAll.reclaim_pages
        (damon_pa_apply_scheme lruAll region16 DamosAction.pageout).batch *
        PAGE_SIZE :=
  ⟨(apply_scheme_action_dispatch lruAll region16 DamosAction.stat).1
      (by decide),
   (apply_scheme_action_dispatch lruAll region16 DamosAction.stat).2⟩

/-- **C8, counterexample**: the claim says a cooperative yield occurs
periodically during the eviction scan, at least once every fixed
number of frames, for every region.  For the concrete 16-frame region
`region16` (with every frame resolvable and isolatable, so the scan
does maximal work), the scan portion of the trace holds 48 per-frame
events (16 frames, 3 calls each) and contains zero `cond_resched`
events; the single `cond_resched` of the whole invocation comes after
the batch reclaim.  Hence no fixed yield period of at most 16 frames
exists, refuting the claim as stated. -/
theorem apply_scheme_no_yield_in_scan_counterexample :
    (scanPortion (damon_pa_apply_scheme lruAll region16
        DamosAction.pageout).events).length = 48 ∧
    countResched (scanPortion (damon_pa_apply_scheme lruAll region16
        DamosAction.pageout).events) = 0 ∧
    countResched (damon_pa_apply_scheme lruAll region16
        DamosAction.pageout).events = 1 := by
  decide

/-- **C8, amended**: `damon_pa_apply_scheme` with the pageout action
performs exactly one cooperative yield (`cond_resched`) per
invocation, after the whole per-frame scan and the batch reclaim; no
yield occurs during the scan itself, and none at all for any other
action. -/
theorem apply_scheme_single_yield (m : SchemeModel) (r : Region)
    (a : DamosAction) :
    countResched (scanPortion (damon_pa_apply_scheme m r
      DamosAction.pageout).events) = 0 ∧
    countResched (damon_pa_apply_scheme m r
      DamosAction.pageout).events = 1 ∧
    (a ≠ DamosAction.pageout →
      countResched (damon_pa_apply_scheme m r a).events = 0) := by
  refine ⟨?_, ?_, ?_⟩
  · rw [scanPortion_apply_scheme]
    exact countResched_scanLoop m _ _
  · simp only [damon_pa_apply_scheme, ne_eq, not_true_eq_false, if_false,
      ite_false, ite_true, not_false_eq_true, if_true]
    simp only [countResched, List.filter_append]
    rw [List.length_append]
    have h1 : countResched (scanLoop m (scanAddrs r.ar_start r.ar_end) []).1
        = 0 := countResched_scanLoop m _ _
    simp only [countResched] at h1
    rw [h1]
    simp
  · intro h
    simp [damon_pa_apply_scheme, h, countResched]

/-- Witness for `apply_scheme_single_yield` at a concrete model,
region and non-pageout action. -/
theorem apply_scheme_single_yield_witness :
    countResched (scanPortion (damon_pa_apply_scheme lruAll region16
      DamosAction.pageout).events) = 0 ∧
    countResched (damon_pa_apply_scheme lruAll region16
      DamosAction.cold).events = 0 :=
  ⟨(apply_scheme_single_yield lruAll region16 DamosAction.cold).1,
   (apply_scheme_single_yield lruAll region16 DamosAction.cold).2.2
     (by decide)⟩


/-! ### C1: policy for unresolvable frames in the hot test -/

/-- A page that exists but is unmapped/non-reverse-mappable and whose
idle flag has been cleared. -/
def pgUnmappedBusy : PageInfo :=
  { mapped := false, rmapping := false, idle := false, needLock := false,
    lockOk := true, walkAccessed := false, walkSz := PAGE_SIZE }

/-- A page that exists but is unmapped/non-reverse-mappable with its
idle flag still set. -/
def pgUnmappedIdle : PageInfo :=
  { mapped := false, rmapping := false, idle := true, needLock := false,
    lockOk := true, walkAccessed := false, walkSz := PAGE_SIZE }

/-- A mapped page that needs the page lock and whose trylock fails. -/
def pgLockBusy : PageInfo :=
  { mapped := true, rmapping := true, idle := false, needLock := true,
    lockOk := false, walkAccessed := true, walkSz := PAGE_SIZE }

/-- Frame 42 holds an unmapped, non-idle page; everything else has no
page. -/
def pmUnmappedBusy : PageModel :=
  { getPage := fun pfn => if pfn = 42 then some pgUnmappedBusy else none }

/-- Mixed model: frame 1 unmapped-idle, frame 2 lock-contended. -/
def pmMixed : PageModel :=
  { getPage := fun pfn =>
      if pfn = 1 then some pgUnmappedIdle
      else if pfn = 2 then some pgLockBusy
      else none }

/-- One full round (prepare then check) over a single region pinned to
frame 42, against `pmUnmappedBusy`. -/
def c1run : MonState × List (List Region) × Nat :=
  let p := damon_pa_prepare_access_checks rngZero initState
    [[pinnedRegion 42]]
  damon_pa_check_accesses pmUnmappedBusy p.1 p.2

/-- **C1, counterexample**: the claim says every frame that is not
mapped or not reverse-mappable at hot-check time reports
`accessed = false` and never increments `nr_accesses`.  Frame 42 holds
a page that exists, is not mapped, and is not idle: `damon_pa_young`
reports `accessed = true` (the code uses the page idle flag, not a
constant `false`, for unmapped pages), and the region sampled at that
frame has its `nr_accesses` incremented to 1. -/
theorem young_unmapped_not_idle_counterexample :
    (damon_pa_young pmUnmappedBusy (42 * PAGE_SIZE)).1 = true ∧
    c1run.2.1.map (fun t => t.map (fun r => r.nr_accesses)) = [[1]] ∧
    c1run.2.2 = 1 := by decide

/-- **C1, amended**: a frame with no page at all (lookup failure) and a
lock-contended frame deterministically report `(false, PAGE_SIZE)`;
an unmapped or non-reverse-mappable page instead reports
`accessed = !idle`, i.e. it is treated as cold exactly when its idle
flag is still set; and a region whose check-phase visit takes the slow
path with a false hot-test keeps its `nr_accesses` unchanged. -/
theorem young_unresolvable_policy (pm : PageModel) (addr : Nat) :
    (pm.getPage (PHYS_PFN addr) = none →
      damon_pa_young pm addr = (false, PAGE_SIZE)) ∧
    (∀ pg, pm.getPage (PHYS_PFN addr) = some pg →
      (¬ pg.mapped ∨ ¬ pg.rmapping) →
      (damon_pa_young pm addr).1 = ! pg.idle) ∧
    (∀ pg, pm.getPage (PHYS_PFN addr) = some pg →
      pg.mapped → pg.rmapping → pg.needLock → ¬ pg.lockOk →
      damon_pa_young pm addr = (false, PAGE_SIZE)) ∧
    (∀ st r, damon_pa_check_fast st.cache (PHYS_PFN r.sampling_addr) = none →
      (damon_pa_young pm r.sampling_addr).1 = false →
      ((__damon_pa_check_access pm st r).2.1).nr_accesses =
        r.nr_accesses) := by
  refine ⟨?_, ?_, ?_, ?_⟩
  · intro h
    simp [damon_pa_young, youngOnPfn, h]
  · intro pg h hmr
    simp only [damon_pa_young, youngOnPfn, h]
    rw [if_pos hmr]
  · intro pg h hm hr hnl hlo
    simp only [damon_pa_young, youngOnPfn, h]
    rw [if_neg (by simp [hm, hr]), if_pos ⟨hnl, hlo⟩]
  · intro st r hfast hacc
    simp only [__damon_pa_check_access, hfast]
    simp [hacc]

/-- Witness for `young_unresolvable_policy`: each branch exercised at a
concrete frame of `pmMixed`. -/
theorem young_unresolvable_policy_witness :
    damon_pa_young pmMixed (3 * PAGE_SIZE) = (false, PAGE_SIZE) ∧
    (damon_pa_young pmMixed (1 * PAGE_SIZE)).1 = false ∧
    damon_pa_young pmMixed (2 * PAGE_SIZE) = (false, PAGE_SIZE) ∧
    ((__damon_pa_check_access pmMixed initState
      (pinnedRegion 3)).2.1).nr_accesses = 0 :=
  ⟨(young_unresolvable_policy pmMixed (3 * PAGE_SIZE)).1 (by decide),
   ((young_unresolvable_policy pmMixed (1 * PAGE_SIZE)).2.1 pgUnmappedIdle
      (by decide) (by decide)).trans (by decide),
   (young_unresolvable_policy pmMixed (2 * PAGE_SIZE)).2.2.1 pgLockBusy
      (by decide) (by decide) (by decide) (by decide) (by decide),
   (young_unresolvable_policy pmMixed 0).2.2.2 initState (pinnedRegion 3)
      (by decide) (by decide)⟩

/-! ### C2: huge-page propagation -/

/-- A hot page mapped by a 2 MiB huge mapping. -/
def pgHuge2M : PageInfo :=
  { mapped := true, rmapping := true, idle := false, needLock := false,
    lockOk := true, walkAccessed := true, walkSz := 2 ^ 21 }

/-- Every frame of the 2 MiB unit `[512, 1024)` belongs to the same hot
huge mapping (a perfectly consistent oracle); no other frame has a
page. -/
def pmHugeUnit : PageModel :=
  { getPage := fun pfn =>
      if 512 ≤ pfn ∧ pfn < 1024 then some pgHuge2M else none }

/-- One full round over two regions pinned to frames 1000 and 700,
both inside the huge unit `[512, 1024)`, against `pmHugeUnit`. -/
def c2run : MonState × List (List Region) × Nat :=
  let p := damon_pa_prepare_access_checks rngZero initState
    [[pinnedRegion 1000, pinnedRegion 700]]
  damon_pa_check_accesses pmHugeUnit p.1 p.2

/-- **C2, code evaluation at the failing input**: checking region 1
(frame 1000) reports the huge size `2^21` and caches the result under
frames 1000 and 512 (the base-aligned frame).  Region 2's frame 700
lies in the same base-aligned huge unit (`700 & ~511 = 512 =
1000 & ~511`), yet its check invokes the hot-test oracle again —
`damon_pa_young` runs for frame 700 as well — because the exact-`pfn`
cache lookup for 700 cannot match the entries stored under 1000 or
512.  This contradicts the claim (and the code's own comment) that
other samples within the same huge mapping reuse the result. -/
theorem check_access_huge_reuse_failing_input :
    (youngOnPfn pmHugeUnit 1000).2 = 2 ^ 21 ∧
    Nat.land 1000 (2 ^ 64 - 512) = 512 ∧
    Nat.land 700 (2 ^ 64 - 512) = 512 ∧
    c2run.1.youngCalls = [1000, 700] := by decide

/-! ### C3: prepare-phase deduplication -/

/-- Six one-page regions: frames 36, 180, 413, 646 and 790 all hash to
cache bucket 192, and frame 36 is sampled again at the end. -/
def c3run : MonState × List (List Region) :=
  damon_pa_prepare_access_checks rngZero initState
    [[pinnedRegion 36, pinnedRegion 180, pinnedRegion 413,
      pinnedRegion 646, pinnedRegion 790, pinnedRegion 36]]

/-- **C3, counterexample**: the claim says any two regions of one round
whose samples map to the same frame trigger the cold-mark oracle at
most once.  Regions 1 and 6 both sample frame 36, but the four
intervening frames 180, 413, 646, 790 hash to the same bucket (192) as
frame 36, fill its probe window and evict its entry, so
`damon_pa_mkold` runs twice for frame 36. -/
theorem prepare_dedup_eviction_counterexample :
    ([36, 180, 413, 646, 790].map hash_long) =
      [192, 192, 192, 192, 192] ∧
    c3run.1.mkoldCalls = [36, 180, 413, 646, 790, 36] ∧
    c3run.1.mkoldCalls.count 36 = 2 := by decide


/-! ### Step-shape and round-begin lemmas -/

theorem prepare_step_miss (rng : Nat → Nat) (st : MonState) (r : Region)
    (h : damon_pa_mkold_hit st.cache
      (PHYS_PFN (damon_rand rng st.rngIdx r.ar_start r.ar_end)) = false) :
    __damon_pa_prepare_access_check rng st r =
      ({ cache := writeSlot st.cache
            (damon_pa_cache_get_slot st.cache
              (PHYS_PFN (damon_rand rng st.rngIdx r.ar_start r.ar_end)))
            { gen := st.cache.gen,
              pfn := PHYS_PFN (damon_rand rng st.rngIdx r.ar_start r.ar_end),
              page_sz := 0, accessed := false, mkold_done := true },
          rngIdx := st.rngIdx + 1,
          mkoldCalls := st.mkoldCalls ++
            [PHYS_PFN (damon_rand rng st.rngIdx r.ar_start r.ar_end)],
          youngCalls := st.youngCalls, accLog := st.accLog },
       { r with sampling_addr := damon_rand rng st.rngIdx r.ar_start r.ar_end }) := by
  simp [__damon_pa_prepare_access_check, h]

theorem prepare_step_hit (rng : Nat → Nat) (st : MonState) (r : Region)
    (h : damon_pa_mkold_hit st.cache
      (PHYS_PFN (damon_rand rng st.rngIdx r.ar_start r.ar_end)) = true) :
    __damon_pa_prepare_access_check rng st r =
      ({ st with rngIdx := st.rngIdx + 1 },
       { r with sampling_addr := damon_rand rng st.rngIdx r.ar_start r.ar_end }) := by
  simp [__damon_pa_prepare_access_check, h]
theorem round_begin_gen_ne_zero (s : CacheState) :
    (damon_pa_cache_round_begin s).gen ≠ 0 := by
  simp only [damon_pa_cache_round_begin]
  split_ifs with h
  · simp
  · exact h

theorem round_begin_slots (s : CacheState) :
    (damon_pa_cache_round_begin s).slots = s.slots := rfl

/-- **C3, amended**: two regions whose samples map to the same frame
trigger the cold-mark oracle at most once provided the frame's cache
entry is not evicted in between; in particular, for two consecutive
regions with the same sample frame (a round consisting of exactly
those two regions, started from a cache with no live entries for the
new generation), `damon_pa_mkold` runs exactly once. -/
theorem prepare_dedup_consecutive (rng : Nat → Nat) (st : MonState)
    (r1 r2 : Region)
    (hlen : st.cache.slots.length = DAMON_PA_CACHE_SIZE)
    (hnores : ∀ i, (st.cache.slots.getD i zeroEnt).gen ≠
      (damon_pa_cache_round_begin st.cache).gen)
    (hsame : PHYS_PFN (damon_rand rng st.rngIdx r1.ar_start r1.ar_end) =
      PHYS_PFN (damon_rand rng (st.rngIdx + 1) r2.ar_start r2.ar_end)) :
    (damon_pa_prepare_access_checks rng st [[r1, r2]]).1.mkoldCalls =
      st.mkoldCalls ++
        [PHYS_PFN (damon_rand rng st.rngIdx r1.ar_start r1.ar_end)] := by
  set s0 := damon_pa_cache_round_begin st.cache with hs0
  set p := PHYS_PFN (damon_rand rng st.rngIdx r1.ar_start r1.ar_end) with hp
  set st0 : MonState := { st with cache := s0 } with hst0
  have hstale : ∀ k, (slotAt s0 p k).gen ≠ s0.gen := by
    intro k
    simp only [slotAt, hs0, round_begin_slots]
    exact hnores (cacheIdx p k)
  have hlook1 : damon_pa_cache_lookup s0 p = none :=
    lookup_eq_none_of s0 p (fun k _ hm => hstale k hm.1)
  have hhit1 : damon_pa_mkold_hit s0 p = false := by
    simp [damon_pa_mkold_hit, hlook1]
  have hslot : damon_pa_cache_get_slot s0 p = cacheIdx p 0 :=
    get_slot_stale0 s0 p (hstale 0)
  have hstep1 := prepare_step_miss rng st0 r1 (by exact hhit1)
  set ent1 : CacheEnt :=
    { gen := s0.gen, pfn := p, page_sz := 0, accessed := false,
      mkold_done := true } with hent1
  set st1 : MonState :=
    { cache := writeSlot s0 (cacheIdx p 0) ent1,
      rngIdx := st.rngIdx + 1,
      mkoldCalls := st.mkoldCalls ++ [p],
      youngCalls := st.youngCalls, accLog := st.accLog } with hst1
  have hstep1' : __damon_pa_prepare_access_check rng st0 r1 =
      (st1,
        { r1 with
          sampling_addr := damon_rand rng st.rngIdx r1.ar_start r1.ar_end }) := by
    rw [hstep1]
    simp [hst0, hst1, hslot, hent1, hp]
  have hmatch : entMatches st1.cache p 0 := by
    constructor
    · simp only [hst1, slotAt, writeSlot_gen]
      rw [getD_writeSlot]
      simp [hlen, cacheIdx_lt, round_begin_slots, hent1, hs0]
    · simp only [hst1, slotAt]
      rw [getD_writeSlot]
      simp [hlen, cacheIdx_lt, round_begin_slots, hent1, hs0]
  have hlook2 : damon_pa_cache_lookup st1.cache p =
      some (slotAt st1.cache p 0) := lookup_first_hit st1.cache p hmatch
  have hslot0 : slotAt st1.cache p 0 = ent1 := by
    simp only [hst1, slotAt]
    rw [getD_writeSlot]
    simp [hlen, cacheIdx_lt, round_begin_slots, hs0]
  have hhit2 : damon_pa_mkold_hit st1.cache
      (PHYS_PFN (damon_rand rng (st.rngIdx + 1) r2.ar_start r2.ar_end)) =
        true := by
    rw [← hsame, damon_pa_mkold_hit.eq_def, hlook2, hslot0]
  have hstep2 := prepare_step_hit rng st1 r2 (by
    rw [show st1.rngIdx = st.rngIdx + 1 from rfl]
    exact hhit2)
  rw [damon_pa_prepare_access_checks]
  simp only [prepareTargets, prepareRegions]
  rw [show ({ st with cache := damon_pa_cache_round_begin st.cache } : MonState)
    = st0 from rfl]
  rw [hstep1']
  simp only []
  rw [show st1.rngIdx = st.rngIdx + 1 from rfl] at hstep2
  rw [hstep2]

/-- Witness for `prepare_dedup_consecutive`: two adjacent regions
pinned to frame 9, starting from the pristine state. -/
theorem prepare_dedup_consecutive_witness :
    (damon_pa_prepare_access_checks rngZero initState
      [[pinnedRegion 9, pinnedRegion 9]]).1.mkoldCalls =
      initState.mkoldCalls ++
        [PHYS_PFN (damon_rand rngZero initState.rngIdx
          (pinnedRegion 9).ar_start (pinnedRegion 9).ar_end)] :=
  prepare_dedup_consecutive rngZero initState (pinnedRegion 9)
    (pinnedRegion 9) (by simp [initState, initCache])
    (fun i => by
      rw [show initState.cache.slots =
        List.replicate DAMON_PA_CACHE_SIZE zeroEnt from rfl, getD_initSlots]
      decide)
    (by decide)

theorem foldr_max_zero (l : List Nat) (b : Nat) :
    l.foldr max b = max (l.foldr max 0) b := by
  induction l with
  | nil => simp
  | cons x t ih => simp [List.foldr_cons, ih]; omega

theorem foldr_max_swap (A B : List Nat) (mx : Nat) :
    A.foldr max (B.foldr max mx) = B.foldr max (A.foldr max mx) := by
  rw [foldr_max_zero A (B.foldr max mx), foldr_max_zero B mx,
    foldr_max_zero B (A.foldr max mx), foldr_max_zero A mx]
  exact max_left_comm _ _ _

/-- The per-visit bump of `nr_accesses` and the `accessed` log entry. -/
theorem check_step_acc (pm : PageModel) (st : MonState) (r : Region) :
    (__damon_pa_check_access pm st r).1.accLog =
      st.accLog ++ [(__damon_pa_check_access pm st r).2.2] ∧
    (__damon_pa_check_access pm st r).2.1.nr_accesses =
      (if (__damon_pa_check_access pm st r).2.2 then
        (r.nr_accesses + 1) % 2 ^ 32 else r.nr_accesses) := by
  cases hfast : damon_pa_check_fast st.cache (PHYS_PFN r.sampling_addr) with
  | some b =>
    simp only [__damon_pa_check_access, hfast]
    cases b <;> simp
  | none =>
    simp only [__damon_pa_check_access, hfast]
    cases hacc : (damon_pa_young pm r.sampling_addr).1 <;>
      split_ifs <;> simp [hacc]

theorem checkRegions_spec (pm : PageModel) :
    ∀ (rs : List Region) (st : MonState) (mx : Nat),
      ∃ flags : List Bool, flags.length = rs.length ∧
        (checkRegions pm st mx rs).1.accLog = st.accLog ++ flags ∧
        ((checkRegions pm st mx rs).2.1.map (fun r => r.nr_accesses)) =
          List.zipWith (fun r b => if b then (r.nr_accesses + 1) % 2 ^ 32
            else r.nr_accesses) rs flags ∧
        (checkRegions pm st mx rs).2.2 =
          ((checkRegions pm st mx rs).2.1.map
            (fun r => r.nr_accesses)).foldr max mx := by
  intro rs
  induction rs with
  | nil =>
    intro st mx
    exact ⟨[], rfl, by simp [checkRegions], by simp [checkRegions],
      by simp [checkRegions]⟩
  | cons r rest ih =>
    intro st mx
    rcases hstep : __damon_pa_check_access pm st r with ⟨st1, r1, b⟩
    have hacc := (check_step_acc pm st r).1
    have hnr := (check_step_acc pm st r).2
    rw [hstep] at hacc hnr
    simp only [] at hacc hnr
    obtain ⟨flags, hlen, hlog, hmap, hmx⟩ := ih st1 (max r1.nr_accesses mx)
    refine ⟨b :: flags, by simp [hlen], ?_, ?_, ?_⟩
    · simp only [checkRegions, hstep]
      rw [hlog, hacc]
      simp
    · simp only [checkRegions, hstep, List.map_cons, List.zipWith_cons_cons]
      rw [hmap, hnr]
    · simp only [checkRegions, hstep, List.map_cons, List.foldr_cons]
      rw [hmx]
      rw [foldr_max_zero _ (max r1.nr_accesses mx), foldr_max_zero _ mx]
      exact max_left_comm _ _ _

theorem checkTargets_spec (pm : PageModel) :
    ∀ (ts : List (List Region)) (st : MonState) (mx : Nat),
      ∃ flags : List Bool, flags.length = ts.join.length ∧
        (checkTargets pm st mx ts).1.accLog = st.accLog ++ flags ∧
        ((checkTargets pm st mx ts).2.1.join.map (fun r => r.nr_accesses)) =
          List.zipWith (fun r b => if b then (r.nr_accesses + 1) % 2 ^ 32
            else r.nr_accesses) ts.join flags ∧
        (checkTargets pm st mx ts).2.2 =
          ((checkTargets pm st mx ts).2.1.join.map
            (fun r => r.nr_accesses)).foldr max mx := by
  intro ts
  induction ts with
  | nil =>
    intro st mx
    exact ⟨[], rfl, by simp [checkTargets], by simp [checkTargets],
      by simp [checkTargets]⟩
  | cons t rest ih =>
    intro st mx
    rcases hstep : checkRegions pm st mx t with ⟨st1, t1, mx1⟩
    obtain ⟨flags1, hlen1, hlog1, hmap1, hmx1⟩ := checkRegions_spec pm t st mx
    rw [hstep] at hlog1 hmap1 hmx1
    simp only [] at hlog1 hmap1 hmx1
    obtain ⟨flags2, hlen2, hlog2, hmap2, hmx2⟩ := ih st1 mx1
    refine ⟨flags1 ++ flags2, ?_, ?_, ?_, ?_⟩
    · simp [hlen1, hlen2]
    · simp only [checkTargets, hstep]
      rw [hlog2, hlog1]
      simp
    · simp only [checkTargets, hstep, List.join_cons, List.map_append]
      rw [List.zipWith_append _ _ _ _ _ (by rw [hlen1]), hmap1, hmap2]
    · simp only [checkTargets, hstep, List.join_cons, List.map_append,
        List.foldr_append]
      rw [hmx2, hmx1]
      exact foldr_max_swap _ _ _

/-- **C7**: `damon_pa_check_accesses` returns the maximum of
`nr_accesses` over all regions of all targets it visits, 0 when there
are none; and every visited region's counter is incremented by one
(as a 32-bit counter) exactly when its sample frame was found accessed
this round — `flags` is the per-visit list of `accessed` values used,
in visit order. -/
theorem check_accesses_max_and_increments (pm : PageModel) (st : MonState)
    (ts : List (List Region)) :
    ∃ flags : List Bool,
      (damon_pa_check_accesses pm st ts).1.accLog = st.accLog ++ flags ∧
      ((damon_pa_check_accesses pm st ts).2.1.join.map
        (fun r => r.nr_accesses)) =
        List.zipWith (fun r b => if b then (r.nr_accesses + 1) % 2 ^ 32
          else r.nr_accesses) ts.join flags ∧
      (damon_pa_check_accesses pm st ts).2.2 =
        ((damon_pa_check_accesses pm st ts).2.1.join.map
          (fun r => r.nr_accesses)).foldr max 0 := by
  obtain ⟨flags, _, hlog, hmap, hmx⟩ := checkTargets_spec pm ts st 0
  exact ⟨flags, hlog, hmap, hmx⟩

/-! ### Cache invariants -/

/-- Every entry whose generation is not the reserved 0 was produced by
one of the three write sites, all of which set `mkold_done`. -/
def MkoldInv (s : CacheState) : Prop :=
  ∀ i, (s.slots.getD i zeroEnt).gen ≠ 0 →
    (s.slots.getD i zeroEnt).mkold_done = true

/-- Every written entry sits inside its own frame's probe window. -/
def WindowInv (s : CacheState) : Prop :=
  ∀ i, (s.slots.getD i zeroEnt).gen ≠ 0 →
    ∃ k, k < DAMON_PA_CACHE_PROBES ∧
      cacheIdx (s.slots.getD i zeroEnt).pfn k = i

/-- For every nonzero generation, at most one entry per frame number. -/
def UniqInv (s : CacheState) : Prop :=
  ∀ g i j, g ≠ 0 → i ≠ j →
    (s.slots.getD i zeroEnt).gen = g →
    (s.slots.getD j zeroEnt).gen = g →
    (s.slots.getD i zeroEnt).pfn ≠ (s.slots.getD j zeroEnt).pfn

/-- The combined invariant maintained by the prepare phase. -/
def CacheInv (s : CacheState) : Prop :=
  MkoldInv s ∧ WindowInv s ∧ UniqInv s

/-- At most one *live* entry (current, nonzero generation) per frame. -/
def AtMostOneLive (s : CacheState) : Prop :=
  ∀ i j, i ≠ j → s.gen ≠ 0 →
    (s.slots.getD i zeroEnt).gen = s.gen →
    (s.slots.getD j zeroEnt).gen = s.gen →
    (s.slots.getD i zeroEnt).pfn ≠ (s.slots.getD j zeroEnt).pfn

theorem uniqInv_atMostOneLive (s : CacheState) (h : UniqInv s) :
    AtMostOneLive s :=
  fun i j hne hg hi hj => h s.gen i j hg hne hi hj

theorem cacheInv_initCache : CacheInv initCache := by
  refine ⟨?_, ?_, ?_⟩
  · intro i
    rw [show initCache.slots = List.replicate DAMON_PA_CACHE_SIZE zeroEnt
      from rfl, getD_initSlots]
    intro h
    exact absurd rfl h
  · intro i
    rw [show initCache.slots = List.replicate DAMON_PA_CACHE_SIZE zeroEnt
      from rfl, getD_initSlots]
    intro h
    exact absurd rfl h
  · intro g i j hg _ hi _
    rw [show initCache.slots = List.replicate DAMON_PA_CACHE_SIZE zeroEnt
      from rfl, getD_initSlots] at hi
    exact absurd hi.symm (by simpa [zeroEnt] using hg)

theorem mkoldInv_write (s : CacheState) (j : Nat) (e : CacheEnt)
    (he : e.mkold_done = true) (h : MkoldInv s) :
    MkoldInv (writeSlot s j e) := by
  intro i
  rw [getD_writeSlot]
  split_ifs with hc
  · intro _; exact he
  · exact h i

theorem cacheInv_roundBegin (s : CacheState) (h : CacheInv s) :
    CacheInv (damon_pa_cache_round_begin s) := h

/-- A missed (or not-cold-marked) dedup test plus the invariant rule
out any other entry of the current nonzero generation for the frame. -/
theorem no_other_live_covers (s : CacheState) (p : Nat)
    (hinv : CacheInv s)
    (hmiss : damon_pa_mkold_hit s p = false)
    (hgne : s.gen ≠ 0)
    (i : Nat) (hg : (s.slots.getD i zeroEnt).gen = s.gen)
    (hp : (s.slots.getD i zeroEnt).pfn = p) : False := by
  obtain ⟨k, hk, hik⟩ := hinv.2.1 i (by rw [hg]; exact hgne)
  rw [hp] at hik
  have hm : entMatches s p k := by
    constructor
    · simp only [slotAt, hik]
      exact hg
    · simp only [slotAt, hik]
      exact hp
  cases hlu : damon_pa_cache_lookup s p with
  | none => exact absurd hm (lookup_none_elim s p hlu k hk)
  | some e =>
    obtain ⟨k2, hk2, he, hm2⟩ := lookup_some_elim s p e hlu
    have hmk : e.mkold_done = true := by
      rw [he]
      exact hinv.1 (cacheIdx p k2) (by
        have := hm2.1
        simp only [slotAt] at this
        rw [this]
        exact hgne)
    rw [damon_pa_mkold_hit.eq_def, hlu] at hmiss
    simp only [] at hmiss
    rw [hmk] at hmiss
    exact absurd hmiss (by simp)

theorem cacheInv_prepare_write (s : CacheState) (p : Nat)
    (hinv : CacheInv s)
    (hmiss : damon_pa_mkold_hit s p = false) :
    CacheInv (writeSlot s (damon_pa_cache_get_slot s p)
      { gen := s.gen, pfn := p, page_sz := 0, accessed := false,
        mkold_done := true }) := by
  obtain ⟨hmk, hwin, huniq⟩ := hinv
  refine ⟨mkoldInv_write s _ _ rfl hmk, ?_, ?_⟩
  · intro i
    rw [getD_writeSlot]
    split_ifs with hc
    · intro _
      obtain ⟨k, hk, hjk⟩ := get_slot_in_window s p
      refine ⟨k, hk, ?_⟩
      show cacheIdx p k = i
      rw [← hjk]
      exact hc.1
    · exact hwin i
  · intro g i j hg hne
    rw [getD_writeSlot, getD_writeSlot]
    split_ifs with hci hcj
    · exact absurd (hci.1.symm.trans hcj.1) hne
    · -- i is the written slot, j is an old entry
      intro hgi hgj
      simp only [] at hgi
      intro hpe
      exact no_other_live_covers s p ⟨hmk, hwin, huniq⟩ hmiss
        (by rw [← hgi] at hg; exact hg) j (by rw [hgj, hgi]) (by rw [← hpe])
    · -- j is the written slot, i is an old entry
      intro hgi hgj
      simp only [] at hgj
      intro hpe
      exact no_other_live_covers s p ⟨hmk, hwin, huniq⟩ hmiss
        (by rw [← hgj] at hg; exact hg) i (by rw [hgi, hgj]) (by rw [hpe])
    · exact huniq g i j hg hne

theorem cacheInv_prepare_step (rng : Nat → Nat) (st : MonState) (r : Region)
    (h : CacheInv st.cache) :
    CacheInv ((__damon_pa_prepare_access_check rng st r).1.cache) := by
  by_cases hhit : damon_pa_mkold_hit st.cache
    (PHYS_PFN (damon_rand rng st.rngIdx r.ar_start r.ar_end)) = true
  · rw [prepare_step_hit rng st r hhit]
    exact h
  · rw [prepare_step_miss rng st r (by simpa using hhit)]
    exact cacheInv_prepare_write st.cache _ h (by simpa using hhit)

theorem cacheInv_prepareRegions (rng : Nat → Nat) :
    ∀ (rs : List Region) (st : MonState), CacheInv st.cache →
      CacheInv ((prepareRegions rng st rs).1.cache) := by
  intro rs
  induction rs with
  | nil => intro st h; exact h
  | cons r rest ih =>
    intro st h
    rcases hstep : __damon_pa_prepare_access_check rng st r with ⟨st1, r1⟩
    have h1 := cacheInv_prepare_step rng st r h
    rw [hstep] at h1
    simp only [prepareRegions, hstep]
    exact ih st1 h1

theorem cacheInv_prepareTargets (rng : Nat → Nat) :
    ∀ (ts : List (List Region)) (st : MonState), CacheInv st.cache →
      CacheInv ((prepareTargets rng st ts).1.cache) := by
  intro ts
  induction ts with
  | nil => intro st h; exact h
  | cons t rest ih =>
    intro st h
    rcases hstep : prepareRegions rng st t with ⟨st1, t1⟩
    have h1 := cacheInv_prepareRegions rng t st h
    rw [hstep] at h1
    simp only [prepareTargets, hstep]
    exact ih st1 h1

/-- **C4, amended**: the prepare phase preserves the cache invariant,
hence at every point of the prepare phase there is at most one live
entry per frame number (the statement quantifies over an arbitrary
invariant-satisfying starting state, so it covers every intermediate
point; the pristine state satisfies the invariant).  The check phase
does not preserve it — see the counterexample, where a check-phase
hot-test write claims a slot different from the frame's existing
prepare-phase entry and leaves two live entries for the frame. -/
theorem prepare_phase_at_most_one_live (rng : Nat → Nat) (st : MonState)
    (ts : List (List Region)) (h : CacheInv st.cache) :
    CacheInv ((damon_pa_prepare_access_checks rng st ts).1.cache) ∧
    AtMostOneLive ((damon_pa_prepare_access_checks rng st ts).1.cache) ∧
    (∀ r, AtMostOneLive
      ((__damon_pa_prepare_access_check rng st r).1.cache)) ∧
    CacheInv initCache := by
  have hphase : CacheInv
      ((damon_pa_prepare_access_checks rng st ts).1.cache) := by
    rw [damon_pa_prepare_access_checks]
    exact cacheInv_prepareTargets rng ts _ (cacheInv_roundBegin st.cache h)
  refine ⟨hphase, uniqInv_atMostOneLive _ hphase.2.2, ?_, cacheInv_initCache⟩
  intro r
  exact uniqInv_atMostOneLive _ (cacheInv_prepare_step rng st r h).2.2

/-- Witness for `prepare_phase_at_most_one_live` at the pristine state
and a concrete one-region round. -/
theorem prepare_phase_at_most_one_live_witness :
    CacheInv ((damon_pa_prepare_access_checks rngZero initState
      [[pinnedRegion 5]]).1.cache) ∧
    AtMostOneLive ((damon_pa_prepare_access_checks rngZero initState
      [[pinnedRegion 5]]).1.cache) :=
  ⟨(prepare_phase_at_most_one_live rngZero initState [[pinnedRegion 5]]
      cacheInv_initCache).1,
   (prepare_phase_at_most_one_live rngZero initState [[pinnedRegion 5]]
      cacheInv_initCache).2.1⟩

/-- One full round over a single region pinned to frame 1000 against
the huge-mapping model: prepare writes frame 1000's entry at slot 247
(probe 0 of its window), then the check-phase slow path claims the next
stale slot 248 for the same frame. -/
def c4run : MonState × List (List Region) × Nat :=
  let p := damon_pa_prepare_access_checks rngZero initState
    [[pinnedRegion 1000]]
  damon_pa_check_accesses pmHugeUnit p.1 p.2

/-- **C4, counterexample**: after the check phase of this one-region
round, slots 247 and 248 both hold live entries (current generation 1)
for frame 1000 — the prepare-phase entry (hotness unresolved,
`page_sz = 0`) and the check-phase entry (`page_sz = 2^21`).  So "at
most one live cache entry per frame number at every point" is false:
the check-phase writes do not preserve it. -/
theorem check_phase_duplicate_live_counterexample :
    (c4run.1.cache.slots.getD 247 zeroEnt).gen = c4run.1.cache.gen ∧
    (c4run.1.cache.slots.getD 248 zeroEnt).gen = c4run.1.cache.gen ∧
    c4run.1.cache.gen ≠ 0 ∧
    (c4run.1.cache.slots.getD 247 zeroEnt).pfn = 1000 ∧
    (c4run.1.cache.slots.getD 248 zeroEnt).pfn = 1000 ∧
    ¬ AtMostOneLive c4run.1.cache := by
  refine ⟨by decide, by decide, by decide, by decide, by decide, ?_⟩
  intro hA
  exact hA 247 248 (by decide) (by decide) (by decide) (by decide)
    (by decide)

/-! ### The exported-primitive machine (for whole-run invariants) -/

/-- One invocation of an exported primitive of this backend that
touches the cache. -/
inductive DamonCall where
  | prep (rng : Nat → Nat) (ts : List (List Region))
  | check (pm : PageModel) (ts : List (List Region))

/-- Run one exported primitive, keeping the engine state. -/
def runCall (st : MonState) : DamonCall → MonState
  | DamonCall.prep rng ts => (damon_pa_prepare_access_checks rng st ts).1
  | DamonCall.check pm ts => (damon_pa_check_accesses pm st ts).1

/-- Run a sequence of primitive invocations from the initial state. -/
def runCalls (calls : List DamonCall) : MonState :=
  calls.foldl runCall initState

theorem mkoldInv_check_step (pm : PageModel) (st : MonState) (r : Region)
    (h : MkoldInv st.cache) :
    MkoldInv ((__damon_pa_check_access pm st r).1.cache) := by
  cases hfast : damon_pa_check_fast st.cache (PHYS_PFN r.sampling_addr) with
  | some b =>
    simp only [__damon_pa_check_access, hfast]
    exact h
  | none =>
    simp only [__damon_pa_check_access, hfast]
    split_ifs with hsz
    · exact mkoldInv_write _ _ _ rfl (mkoldInv_write _ _ _ rfl h)
    · exact mkoldInv_write _ _ _ rfl h

theorem mkoldInv_prepare_step (rng : Nat → Nat) (st : MonState) (r : Region)
    (h : MkoldInv st.cache) :
    MkoldInv ((__damon_pa_prepare_access_check rng st r).1.cache) := by
  by_cases hhit : damon_pa_mkold_hit st.cache
    (PHYS_PFN (damon_rand rng st.rngIdx r.ar_start r.ar_end)) = true
  · rw [prepare_step_hit rng st r hhit]
    exact h
  · rw [prepare_step_miss rng st r (by simpa using hhit)]
    exact mkoldInv_write _ _ _ rfl h

theorem mkoldInv_prepareRegions (rng : Nat → Nat) :
    ∀ (rs : List Region) (st : MonState), MkoldInv st.cache →
      MkoldInv ((prepareRegions rng st rs).1.cache) := by
  intro rs
  induction rs with
  | nil => intro st h; exact h
  | cons r rest ih =>
    intro st h
    rcases hstep : __damon_pa_prepare_access_check rng st r with ⟨st1, r1⟩
    have h1 := mkoldInv_prepare_step rng st r h
    rw [hstep] at h1
    simp only [prepareRegions, hstep]
    exact ih st1 h1

theorem mkoldInv_prepareTargets (rng : Nat → Nat) :
    ∀ (ts : List (List Region)) (st : MonState), MkoldInv st.cache →
      MkoldInv ((prepareTargets rng st ts).1.cache) := by
  intro ts
  induction ts with
  | nil => intro st h; exact h
  | cons t rest ih =>
    intro st h
    rcases hstep : prepareRegions rng st t with ⟨st1, t1⟩
    have h1 := mkoldInv_prepareRegions rng t st h
    rw [hstep] at h1
    simp only [prepareTargets, hstep]
    exact ih st1 h1

theorem mkoldInv_checkRegions (pm : PageModel) :
    ∀ (rs : List Region) (st : MonState) (mx : Nat), MkoldInv st.cache →
      MkoldInv ((checkRegions pm st mx rs).1.cache) := by
  intro rs
  induction rs with
  | nil => intro st mx h; exact h
  | cons r rest ih =>
    intro st mx h
    rcases hstep : __damon_pa_check_access pm st r with ⟨st1, r1, b⟩
    have h1 := mkoldInv_check_step pm st r h
    rw [hstep] at h1
    simp only [checkRegions, hstep]
    exact ih st1 _ h1

theorem mkoldInv_checkTargets (pm : PageModel) :
    ∀ (ts : List (List Region)) (st : MonState) (mx : Nat),
      MkoldInv st.cache →
      MkoldInv ((checkTargets pm st mx ts).1.cache) := by
  intro ts
  induction ts with
  | nil => intro st mx h; exact h
  | cons t rest ih =>
    intro st mx h
    rcases hstep : checkRegions pm st mx t with ⟨st1, t1, mx1⟩
    have h1 := mkoldInv_checkRegions pm t st mx h
    rw [hstep] at h1
    simp only [checkTargets, hstep]
    exact ih st1 _ h1

theorem mkoldInv_runCall (st : MonState) (c : DamonCall)
    (h : MkoldInv st.cache) : MkoldInv (runCall st c).cache := by
  cases c with
  | prep rng ts =>
    simp only [runCall, damon_pa_prepare_access_checks]
    exact mkoldInv_prepareTargets rng ts _ h
  | check pm ts =>
    simp only [runCall, damon_pa_check_accesses]
    exact mkoldInv_checkTargets pm ts st 0 h

theorem mkoldInv_runCalls (calls : List DamonCall) :
    MkoldInv (runCalls calls).cache := by
  rw [runCalls]
  have hinit : MkoldInv initState.cache := cacheInv_initCache.1
  revert hinit
  generalize initState = st
  induction calls generalizing st with
  | nil => intro h; exact h
  | cons c rest ih =>
    intro h
    rw [List.foldl_cons]
    exact ih (runCall st c) (mkoldInv_runCall st c h)

/-- **C10**: in every state reachable by a sequence of exported
prepare/check invocations, every cache entry with a nonzero generation
(in particular every live entry) has `mkold_done = true` — the
prepare-phase write, the check-phase write and the huge-unit
base-frame write all set it — so once at least one round has begun
(generation nonzero), the prepare-phase deduplication test "a live
entry exists with mkold_done" coincides with plain "a live entry
exists", and a frame first written by the hot-check path is thereafter
treated as already cold-marked. -/
theorem live_entries_cold_marked (calls : List DamonCall) (pfn : Nat) :
    MkoldInv (runCalls calls).cache ∧
    ((runCalls calls).cache.gen ≠ 0 →
      damon_pa_mkold_hit (runCalls calls).cache pfn =
        (damon_pa_cache_lookup (runCalls calls).cache pfn).isSome) := by
  refine ⟨mkoldInv_runCalls calls, ?_⟩
  intro hg
  cases hlu : damon_pa_cache_lookup (runCalls calls).cache pfn with
  | none => simp [damon_pa_mkold_hit, hlu]
  | some e =>
    obtain ⟨k, hk, he, hm⟩ :=
      lookup_some_elim (runCalls calls).cache pfn e hlu
    have hmk : e.mkold_done = true := by
      rw [he]
      exact mkoldInv_runCalls calls (cacheIdx pfn k) (by
        have := hm.1
        simp only [slotAt] at this
        rw [this]
        exact hg)
    simp [damon_pa_mkold_hit, hlu, hmk]

/-- Witness for `live_entries_cold_marked`: one prepare round over a
region pinned to frame 7 (generation becomes 1). -/
theorem live_entries_cold_marked_witness :
    MkoldInv (runCalls [DamonCall.prep rngZero [[pinnedRegion 7]]]).cache ∧
    damon_pa_mkold_hit
      (runCalls [DamonCall.prep rngZero [[pinnedRegion 7]]]).cache 7 =
      (damon_pa_cache_lookup
        (runCalls [DamonCall.prep rngZero [[pinnedRegion 7]]]).cache 7).isSome :=
  ⟨(live_entries_cold_marked [DamonCall.prep rngZero [[pinnedRegion 7]]] 7).1,
   (live_entries_cold_marked [DamonCall.prep rngZero [[pinnedRegion 7]]] 7).2
     (by decide)⟩

/-! ### Generation evolution across rounds -/

/-- The generation counter update performed by
`damon_pa_cache_round_begin`. -/
def nextGen (g : Nat) : Nat :=
  if (g + 1) % 2 ^ 64 = 0 then 1 else (g + 1) % 2 ^ 64

theorem round_begin_gen (s : CacheState) :
    (damon_pa_cache_round_begin s).gen = nextGen s.gen := rfl

/-- A round with no targets: `damon_pa_prepare_access_checks` reduces
to the round-begin alone. -/
def emptyRound (st : MonState) : MonState :=
  (damon_pa_prepare_access_checks rngZero st []).1

theorem emptyRound_eq (st : MonState) :
    emptyRound st = { st with cache := damon_pa_cache_round_begin st.cache } :=
  rfl

theorem emptyRound_iter_slots (n : Nat) :
    ∀ st : MonState, (emptyRound^[n] st).cache.slots = st.cache.slots := by
  induction n with
  | zero => intro st; rfl
  | succ m ih =>
    intro st
    rw [Function.iterate_succ_apply]
    rw [ih (emptyRound st)]
    rfl

theorem emptyRound_iter_gen (n : Nat) :
    ∀ st : MonState, (emptyRound^[n] st).cache.gen =
      nextGen^[n] st.cache.gen := by
  induction n with
  | zero => intro st; rfl
  | succ m ih =>
    intro st
    rw [Function.iterate_succ_apply, Function.iterate_succ_apply]
    rw [ih (emptyRound st)]
    rfl

theorem nextGen_iter_add : ∀ (n g : Nat), 0 < g → g + n < 2 ^ 64 →
    nextGen^[n] g = g + n := by
  intro n
  induction n with
  | zero => intro g _ _; simp
  | succ m ih =>
    intro g hg hlt
    rw [Function.iterate_succ_apply]
    have h1 : nextGen g = g + 1 := by
      have hmod : (g + 1) % 2 ^ 64 = g + 1 := Nat.mod_eq_of_lt (by omega)
      simp only [nextGen, hmod]
      have : g + 1 ≠ 0 := by omega
      simp [this]
    rw [h1, ih (g + 1) (by omega) (by omega)]
    omega

theorem nextGen_wrap : nextGen (2 ^ 64 - 1) = 1 := by
  have h : (2 ^ 64 - 1 + 1 : Nat) = 2 ^ 64 := by
    have : (1 : Nat) ≤ 2 ^ 64 := Nat.one_le_two_pow
    omega
  simp [nextGen, h]

/-- Two caches with the same fields look up identically. -/
theorem lookup_congr (s s2 : CacheState) (pfn : Nat)
    (hs : s.slots = s2.slots) (hg : s.gen = s2.gen) :
    damon_pa_cache_lookup s pfn = damon_pa_cache_lookup s2 pfn := by
  cases s with
  | mk sl g =>
    cases s2 with
    | mk sl2 g2 =>
      simp only [] at hs hg
      rw [hs, hg]

/-- The state after one real round over a region pinned to frame 1000:
generation 1, frame 1000's entry live at its probe slot. -/
def wrapStart : MonState :=
  (damon_pa_prepare_access_checks rngZero initState [[pinnedRegion 1000]]).1

/-- **C6, counterexample**: the claim says that immediately after
`begin_round()` advances the generation, `lookup(F)` returns none for
every frame F until a slot is claimed for F in the new round.  Run one
real round (generation 1, a live entry for frame 1000), then `2^64 - 1`
further rounds with no regions (each only advances the generation,
skipping the reserved 0).  The generation wraps back to exactly 1, the
untouched entry for frame 1000 is *live again*, and the first lookup of
the new round — with no slot claimed for frame 1000 — returns it. -/
theorem lookup_after_round_begin_wrap_counterexample :
    (emptyRound^[2 ^ 64 - 1] wrapStart).cache.gen = 1 ∧
    damon_pa_cache_lookup (emptyRound^[2 ^ 64 - 1] wrapStart).cache 1000 ≠
      none := by
  have hgen1 : wrapStart.cache.gen = 1 := by decide
  have hsplit : nextGen^[2 ^ 64 - 1] 1 = 1 := by
    have h1 : (2 ^ 64 - 1 : Nat) = (2 ^ 64 - 2) + 1 := by
      have : (2 : Nat) ≤ 2 ^ 64 := by norm_num
      omega
    rw [h1, Function.iterate_succ_apply']
    rw [nextGen_iter_add (2 ^ 64 - 2) 1 (by omega) (by
      have : (2 : Nat) ≤ 2 ^ 64 := by norm_num
      omega)]
    rw [show (1 + (2 ^ 64 - 2) : Nat) = 2 ^ 64 - 1 by
      have : (2 : Nat) ≤ 2 ^ 64 := by norm_num
      omega]
    exact nextGen_wrap
  have hg : (emptyRound^[2 ^ 64 - 1] wrapStart).cache.gen = 1 := by
    rw [emptyRound_iter_gen, hgen1, hsplit]
  refine ⟨hg, ?_⟩
  rw [lookup_congr _ wrapStart.cache 1000
    (emptyRound_iter_slots _ _) (by rw [hg, hgen1])]
  decide

/-- **C6, amended**: the generation value after `begin_round()` is
never 0; and *provided no stored entry's generation already equals the
new generation value* (true whenever fewer than `2^64 - 1` rounds have
begun since the entry was written — the counterexample shows the wrap
can resurrect an entry), every lookup misses right after the round
begins, and continues to miss as long as the only slot writes are for
other frame numbers (i.e. until a slot is claimed and written for the
frame). -/
theorem round_begin_fresh (s : CacheState)
    (h : ∀ i, (s.slots.getD i zeroEnt).gen ≠
      (damon_pa_cache_round_begin s).gen) :
    (damon_pa_cache_round_begin s).gen ≠ 0 ∧
    (∀ F, damon_pa_cache_lookup (damon_pa_cache_round_begin s) F = none) ∧
    (∀ (s2 : CacheState) (j : Nat) (e : CacheEnt) (F : Nat), e.pfn ≠ F →
      damon_pa_cache_lookup s2 F = none →
      damon_pa_cache_lookup (writeSlot s2 j e) F = none) := by
  refine ⟨round_begin_gen_ne_zero s, ?_, ?_⟩
  · intro F
    apply lookup_eq_none_of
    intro k _ hm
    exact h (cacheIdx F k) hm.1
  · intro s2 j e F hpf hnone
    apply lookup_eq_none_of
    intro k hk hm
    obtain ⟨hg, hp⟩ := hm
    simp only [slotAt] at hg hp
    rw [getD_writeSlot] at hg hp
    rw [writeSlot_gen] at hg
    by_cases hc : j = cacheIdx F k ∧ j < s2.slots.length
    · rw [if_pos hc] at hp
      exact hpf hp
    · rw [if_neg hc] at hg hp
      exact lookup_none_elim s2 F hnone k hk ⟨hg, hp⟩

/-- Witness for `round_begin_fresh` at the pristine cache: the new
generation is 1 and nonzero, frame 5's lookup misses, and a write for
frame 3 keeps frame 4's lookup a miss. -/
theorem round_begin_fresh_witness :
    (damon_pa_cache_round_begin initCache).gen ≠ 0 ∧
    damon_pa_cache_lookup (damon_pa_cache_round_begin initCache) 5 = none ∧
    damon_pa_cache_lookup (writeSlot { slots := initCache.slots, gen := 1 } 0
      { gen := 1, pfn := 3, page_sz := 0, accessed := false,
        mkold_done := true }) 4 = none := by
  have h := round_begin_fresh initCache (fun i => by
    rw [show initCache.slots = List.replicate DAMON_PA_CACHE_SIZE zeroEnt
      from rfl, getD_initSlots]
    decide)
  exact ⟨h.1, h.2.1 5,
    h.2.2 { slots := initCache.slots, gen := 1 } 0
      { gen := 1, pfn := 3, page_sz := 0, accessed := false,
        mkold_done := true } 4 (by decide) (by decide)⟩

/-! ### C5: the cache as a pure optimisation -/

/-- Invalidate the whole cache: every slot becomes the zero entry,
which is stale for any nonzero generation. -/
def invalidateCache (s : CacheState) : CacheState :=
  { s with slots := List.replicate DAMON_PA_CACHE_SIZE zeroEnt }

/-- Check pass over one target's regions with an adversarial
invalidation schedule: before visiting the `k`-th region overall, the
whole cache is invalidated whenever `sched k` holds.  Returns the next
visit counter, the engine state, the updated regions and the running
maximum. -/
def checkRegionsFl (pm : PageModel) (sched : Nat → Bool) :
    List Region → Nat → MonState → Nat →
      Nat × MonState × List Region × Nat
  | [], k, st, mx => (k, st, [], mx)
  | r :: rs, k, st, mx =>
    let st0 := if sched k then { st with cache := invalidateCache st.cache }
      else st
    let res := __damon_pa_check_access pm st0 r
    let mx1 := max res.2.1.nr_accesses mx
    let rec2 := checkRegionsFl pm sched rs (k + 1) res.1 mx1
    (rec2.1, rec2.2.1, res.2.1 :: rec2.2.2.1, rec2.2.2.2)

/-- Check pass over all targets with an invalidation schedule. -/
def checkTargetsFl (pm : PageModel) (sched : Nat → Bool) :
    List (List Region) → Nat → MonState → Nat →
      Nat × MonState × List (List Region) × Nat
  | [], k, st, mx => (k, st, [], mx)
  | t :: ts, k, st, mx =>
    let res := checkRegionsFl pm sched t k st mx
    let res2 := checkTargetsFl pm sched ts res.1 res.2.1 res.2.2.2
    (res2.1, res2.2.1, res.2.2.1 :: res2.2.2.1, res2.2.2.2)

/-- `damon_pa_check_accesses` with the cache invalidated at the points
chosen by `sched` (the all-`false` schedule is the unmodified pass). -/
def damon_pa_check_accesses_flushed (pm : PageModel) (sched : Nat → Bool)
    (st : MonState) (ts : List (List Region)) :
    Nat × MonState × List (List Region) × Nat :=
  checkTargetsFl pm sched ts 0 st 0

/-- Modelled from the spec (§4.2): the cache-free reference semantics
of one region's check — call the hot-test oracle directly and bump the
counter when accessed. -/
def specCheckRegion (pm : PageModel) (r : Region) : Region :=
  if (youngOnPfn pm (PHYS_PFN r.sampling_addr)).1 then
    { r with nr_accesses := (r.nr_accesses + 1) % 2 ^ 32 }
  else r

/-- Modelled from the spec: cache-free check of all targets. -/
def specCheckTargets (pm : PageModel) (ts : List (List Region)) :
    List (List Region) :=
  ts.map (fun t => t.map (specCheckRegion pm))

/-- Modelled from the spec: the returned maximum of `nr_accesses`. -/
def specMaxNr (ts : List (List Region)) : Nat :=
  (ts.join.map (fun r => r.nr_accesses)).foldr max 0

/-- Modelled from the spec (§4.2 step 1): the sample address chosen
for the `k`-th visited region. -/
def specSample (rng : Nat → Nat) (k : Nat) (r : Region) : Region :=
  { r with sampling_addr := damon_rand rng k r.ar_start r.ar_end }

/-- Modelled from the spec: sample addresses of one target's regions. -/
def specPrepareRegions (rng : Nat → Nat) :
    List Region → Nat → List Region
  | [], _ => []
  | r :: rs, k => specSample rng k r :: specPrepareRegions rng rs (k + 1)

/-- Modelled from the spec: sample addresses of all regions. -/
def specPrepareTargets (rng : Nat → Nat) :
    List (List Region) → Nat → List (List Region)
  | [], _ => []
  | t :: ts, k =>
    specPrepareRegions rng t k :: specPrepareTargets rng ts (k + t.length)

/-- Hot-test results are coherent across a huge unit: whenever the
oracle reports a huge mapping size for a frame, the base-aligned frame
of that unit (as the code computes it) reports the same `accessed`
value.  This is the oracle contract behind the huge-page propagation
("hot-check results apply to the whole unit"). -/
def HugeConsistent (pm : PageModel) : Prop :=
  ∀ pfn, PAGE_SIZE < (youngOnPfn pm pfn).2 →
    (youngOnPfn pm (Nat.land pfn
      (2 ^ 64 - ((youngOnPfn pm pfn).2 >>> PAGE_SHIFT)))).1 =
      (youngOnPfn pm pfn).1

/-- Cache coherence: the generation is nonzero and every live entry
with resolved hotness stores exactly the oracle's `accessed` value for
its frame. -/
def Coherent (pm : PageModel) (s : CacheState) : Prop :=
  s.gen ≠ 0 ∧
  ∀ i, (s.slots.getD i zeroEnt).gen = s.gen →
    (s.slots.getD i zeroEnt).page_sz ≠ 0 →
    (s.slots.getD i zeroEnt).accessed =
      (youngOnPfn pm (s.slots.getD i zeroEnt).pfn).1

theorem coherent_write (pm : PageModel) (s : CacheState) (j : Nat)
    (e : CacheEnt) (h : Coherent pm s)
    (he : e.page_sz ≠ 0 → e.accessed = (youngOnPfn pm e.pfn).1) :
    Coherent pm (writeSlot s j e) := by
  refine ⟨h.1, ?_⟩
  intro i
  rw [getD_writeSlot, writeSlot_gen]
  split_ifs with hc
  · intro _ hsz
    exact he hsz
  · exact h.2 i

theorem coherent_invalidate (pm : PageModel) (s : CacheState)
    (h : Coherent pm s) : Coherent pm (invalidateCache s) := by
  refine ⟨h.1, ?_⟩
  intro i
  rw [show (invalidateCache s).slots =
    List.replicate DAMON_PA_CACHE_SIZE zeroEnt from rfl, getD_initSlots]
  intro hg
  exact absurd hg.symm h.1

theorem coherent_roundBegin (pm : PageModel) (s : CacheState)
    (h : ∀ i, (s.slots.getD i zeroEnt).gen ≠
      (damon_pa_cache_round_begin s).gen) :
    Coherent pm (damon_pa_cache_round_begin s) := by
  refine ⟨round_begin_gen_ne_zero s, ?_⟩
  intro i hg
  exact absurd hg (h i)

theorem coherent_prepare_step (pm : PageModel) (rng : Nat → Nat)
    (st : MonState) (r : Region) (h : Coherent pm st.cache) :
    Coherent pm ((__damon_pa_prepare_access_check rng st r).1.cache) := by
  by_cases hhit : damon_pa_mkold_hit st.cache
    (PHYS_PFN (damon_rand rng st.rngIdx r.ar_start r.ar_end)) = true
  · rw [prepare_step_hit rng st r hhit]
    exact h
  · rw [prepare_step_miss rng st r (by simpa using hhit)]
    exact coherent_write pm st.cache _ _ h (fun hsz => absurd rfl hsz)

theorem coherent_prepareRegions (pm : PageModel) (rng : Nat → Nat) :
    ∀ (rs : List Region) (st : MonState), Coherent pm st.cache →
      Coherent pm ((prepareRegions rng st rs).1.cache) := by
  intro rs
  induction rs with
  | nil => intro st h; exact h
  | cons r rest ih =>
    intro st h
    rcases hstep : __damon_pa_prepare_access_check rng st r with ⟨st1, r1⟩
    have h1 := coherent_prepare_step pm rng st r h
    rw [hstep] at h1
    simp only [prepareRegions, hstep]
    exact ih st1 h1

theorem coherent_prepareTargets (pm : PageModel) (rng : Nat → Nat) :
    ∀ (ts : List (List Region)) (st : MonState), Coherent pm st.cache →
      Coherent pm ((prepareTargets rng st ts).1.cache) := by
  intro ts
  induction ts with
  | nil => intro st h; exact h
  | cons t rest ih =>
    intro st h
    rcases hstep : prepareRegions rng st t with ⟨st1, t1⟩
    have h1 := coherent_prepareRegions pm rng t st h
    rw [hstep] at h1
    simp only [prepareTargets, hstep]
    exact ih st1 h1

/-- Elimination for the fast-path test. -/
theorem check_fast_some_elim (s : CacheState) (pfn : Nat) (b : Bool)
    (h : damon_pa_check_fast s pfn = some b) :
    ∃ e, damon_pa_cache_lookup s pfn = some e ∧ e.page_sz ≠ 0 ∧
      b = e.accessed := by
  rw [damon_pa_check_fast.eq_def] at h
  cases hlu : damon_pa_cache_lookup s pfn with
  | none => rw [hlu] at h; simp at h
  | some e =>
    rw [hlu] at h
    simp only [] at h
    by_cases hsz : e.page_sz ≠ 0
    · rw [if_pos hsz] at h
      exact ⟨e, rfl, hsz, (Option.some.inj h).symm⟩
    · rw [if_neg hsz] at h
      simp at h

/-- One check-phase visit, from a coherent cache, produces exactly the
spec's (cache-free) region update, and keeps the cache coherent. -/
theorem check_step_spec (pm : PageModel) (st : MonState) (r : Region)
    (hhuge : HugeConsistent pm) (hco : Coherent pm st.cache) :
    (__damon_pa_check_access pm st r).2.1 = specCheckRegion pm r ∧
    Coherent pm ((__damon_pa_check_access pm st r).1.cache) := by
  cases hfast : damon_pa_check_fast st.cache (PHYS_PFN r.sampling_addr) with
  | some b =>
    obtain ⟨e, hlu, hsz, hb⟩ :=
      check_fast_some_elim st.cache (PHYS_PFN r.sampling_addr) b hfast
    obtain ⟨k, _, he, hg, hp⟩ :=
      lookup_some_elim st.cache (PHYS_PFN r.sampling_addr) e hlu
    have hacc : e.accessed =
        (youngOnPfn pm (PHYS_PFN r.sampling_addr)).1 := by
      have h2 := hco.2 (cacheIdx (PHYS_PFN r.sampling_addr) k)
      simp only [slotAt] at he hg hp
      rw [← he] at h2 hg hp
      rw [hp] at h2
      exact h2 hg hsz
    constructor
    · simp only [__damon_pa_check_access, hfast]
      rw [specCheckRegion, ← hacc, ← hb]
    · simp only [__damon_pa_check_access, hfast]
      exact hco
  | none =>
    have hacc : (damon_pa_young pm r.sampling_addr).1 =
        (youngOnPfn pm (PHYS_PFN r.sampling_addr)).1 := rfl
    constructor
    · simp only [__damon_pa_check_access, hfast]
      rw [specCheckRegion]
      split_ifs with hsz hy hy <;> simp_all
    · simp only [__damon_pa_check_access, hfast]
      split_ifs with hsz
      · refine coherent_write pm _ _ _ ?_ ?_
        · exact coherent_write pm _ _ _ hco (fun _ => rfl)
        · intro _
          simp only []
          exact (hhuge (PHYS_PFN r.sampling_addr) (by
            simpa using hsz)).symm
      · exact coherent_write pm _ _ _ hco (fun _ => rfl)

theorem checkRegionsFl_spec (pm : PageModel) (sched : Nat → Bool)
    (hhuge : HugeConsistent pm) :
    ∀ (rs : List Region) (k : Nat) (st : MonState) (mx : Nat),
      Coherent pm st.cache →
      (checkRegionsFl pm sched rs k st mx).2.2.1 =
        rs.map (specCheckRegion pm) ∧
      Coherent pm (checkRegionsFl pm sched rs k st mx).2.1.cache ∧
      (checkRegionsFl pm sched rs k st mx).2.2.2 =
        ((rs.map (specCheckRegion pm)).map
          (fun r => r.nr_accesses)).foldr max mx := by
  intro rs
  induction rs with
  | nil =>
    intro k st mx h
    exact ⟨rfl, h, rfl⟩
  | cons r rest ih =>
    intro k st mx h
    have h0 : Coherent pm (if sched k then
        { st with cache := invalidateCache st.cache } else st).cache := by
      split_ifs with hs
      · exact coherent_invalidate pm st.cache h
      · exact h
    obtain ⟨hreg, hcoh⟩ := check_step_spec pm
      (if sched k then { st with cache := invalidateCache st.cache } else st)
      r hhuge h0
    obtain ⟨hmap, hco2, hmx⟩ := ih (k + 1)
      (__damon_pa_check_access pm
        (if sched k then { st with cache := invalidateCache st.cache }
          else st) r).1
      (max (__damon_pa_check_access pm
        (if sched k then { st with cache := invalidateCache st.cache }
          else st) r).2.1.nr_accesses mx) hcoh
    refine ⟨?_, ?_, ?_⟩
    · simp only [checkRegionsFl]
      rw [List.map_cons]
      rw [hmap, hreg]
    · simp only [checkRegionsFl]
      exact hco2
    · simp only [checkRegionsFl]
      rw [hmx, hreg]
      simp only [List.map_cons, List.foldr_cons]
      rw [foldr_max_zero _ (max (specCheckRegion pm r).nr_accesses mx),
        foldr_max_zero _ mx]
      exact max_left_comm _ _ _

theorem checkTargetsFl_spec (pm : PageModel) (sched : Nat → Bool)
    (hhuge : HugeConsistent pm) :
    ∀ (ts : List (List Region)) (k : Nat) (st : MonState) (mx : Nat),
      Coherent pm st.cache →
      (checkTargetsFl pm sched ts k st mx).2.2.1 =
        specCheckTargets pm ts ∧
      Coherent pm (checkTargetsFl pm sched ts k st mx).2.1.cache ∧
      (checkTargetsFl pm sched ts k st mx).2.2.2 =
        ((specCheckTargets pm ts).join.map
          (fun r => r.nr_accesses)).foldr max mx := by
  intro ts
  induction ts with
  | nil =>
    intro k st mx h
    exact ⟨rfl, h, rfl⟩
  | cons t rest ih =>
    intro k st mx h
    obtain ⟨hmap1, hco1, hmx1⟩ := checkRegionsFl_spec pm sched hhuge t k st mx h
    obtain ⟨hmap2, hco2, hmx2⟩ := ih (checkRegionsFl pm sched t k st mx).1
      (checkRegionsFl pm sched t k st mx).2.1
      (checkRegionsFl pm sched t k st mx).2.2.2 hco1
    refine ⟨?_, ?_, ?_⟩
    · simp only [checkTargetsFl, specCheckTargets, List.map_cons]
      rw [hmap2, hmap1]
      rfl
    · simp only [checkTargetsFl]
      exact hco2
    · simp only [checkTargetsFl]
      rw [hmx2, hmx1]
      simp only [specCheckTargets, List.join_cons, List.map_append,
        List.foldr_append, List.map_cons]
      exact foldr_max_swap _ _ _

theorem prepare_step_out (rng : Nat → Nat) (st : MonState) (r : Region) :
    (__damon_pa_prepare_access_check rng st r).2 =
      specSample rng st.rngIdx r ∧
    (__damon_pa_prepare_access_check rng st r).1.rngIdx = st.rngIdx + 1 := by
  by_cases hhit : damon_pa_mkold_hit st.cache
    (PHYS_PFN (damon_rand rng st.rngIdx r.ar_start r.ar_end)) = true
  · rw [prepare_step_hit rng st r hhit]
    exact ⟨rfl, rfl⟩
  · rw [prepare_step_miss rng st r (by simpa using hhit)]
    exact ⟨rfl, rfl⟩

theorem prepareRegions_out (rng : Nat → Nat) :
    ∀ (rs : List Region) (st : MonState),
      (prepareRegions rng st rs).2 =
        specPrepareRegions rng rs st.rngIdx ∧
      (prepareRegions rng st rs).1.rngIdx = st.rngIdx + rs.length := by
  intro rs
  induction rs with
  | nil => intro st; exact ⟨rfl, rfl⟩
  | cons r rest ih =>
    intro st
    rcases hstep : __damon_pa_prepare_access_check rng st r with ⟨st1, r1⟩
    have hout := prepare_step_out rng st r
    rw [hstep] at hout
    simp only [] at hout
    obtain ⟨hr1, hidx⟩ := hout
    obtain ⟨hrest, hidx2⟩ := ih st1
    constructor
    · simp only [prepareRegions, hstep, specPrepareRegions]
      rw [hrest, hr1, hidx]
    · simp only [prepareRegions, hstep, List.length_cons]
      rw [hidx2, hidx]
      omega

theorem prepareTargets_out (rng : Nat → Nat) :
    ∀ (ts : List (List Region)) (st : MonState),
      (prepareTargets rng st ts).2 =
        specPrepareTargets rng ts st.rngIdx ∧
      (prepareTargets rng st ts).1.rngIdx =
        st.rngIdx + ts.join.length := by
  intro ts
  induction ts with
  | nil => intro st; exact ⟨rfl, by simp [prepareTargets]⟩
  | cons t rest ih =>
    intro st
    rcases hstep : prepareRegions rng st t with ⟨st1, t1⟩
    have hout := prepareRegions_out rng t st
    rw [hstep] at hout
    simp only [] at hout
    obtain ⟨ht1, hidx⟩ := hout
    obtain ⟨hrest, hidx2⟩ := ih st1
    constructor
    · simp only [prepareTargets, hstep, specPrepareTargets]
      rw [hrest, ht1, hidx]
    · simp only [prepareTargets, hstep, List.join_cons, List.length_append]
      rw [hidx2, hidx]
      have hjf : rest.join.length = rest.flatten.length := rfl
      omega

/-- **C5**: the Round Cache is observationally transparent.  The
sample addresses chosen by the prepare phase, the per-region
`nr_accesses` updates of the check phase, and the returned maximum all
equal the cache-free reference semantics modelled from the spec — for
*every* invalidation schedule `sched` (invalidating all entries before
any subset of the visits), so wiping the cache at any point changes
only the number of oracle calls, not the observable results.
Hypotheses: the oracle is huge-consistent (hot-check results apply to
the whole huge unit, the spec's oracle contract), and no stored entry's
generation collides with the new round's generation (no wrap
resurrection, cf. the C6 counterexample). -/
theorem cache_transparent (pm : PageModel) (rng : Nat → Nat)
    (sched : Nat → Bool) (st : MonState) (ts : List (List Region))
    (hhuge : HugeConsistent pm)
    (hfresh : ∀ i, (st.cache.slots.getD i zeroEnt).gen ≠
      (damon_pa_cache_round_begin st.cache).gen) :
    (damon_pa_prepare_access_checks rng st ts).2 =
      specPrepareTargets rng ts st.rngIdx ∧
    (damon_pa_check_accesses_flushed pm sched
      (damon_pa_prepare_access_checks rng st ts).1
      (damon_pa_prepare_access_checks rng st ts).2).2.2.1 =
      specCheckTargets pm (specPrepareTargets rng ts st.rngIdx) ∧
    (damon_pa_check_accesses_flushed pm sched
      (damon_pa_prepare_access_checks rng st ts).1
      (damon_pa_prepare_access_checks rng st ts).2).2.2.2 =
      specMaxNr (specCheckTargets pm
        (specPrepareTargets rng ts st.rngIdx)) := by
  have hprep : (damon_pa_prepare_access_checks rng st ts).2 =
      specPrepareTargets rng ts st.rngIdx := by
    rw [damon_pa_prepare_access_checks]
    exact (prepareTargets_out rng ts _).1
  have hco : Coherent pm (damon_pa_prepare_access_checks rng st ts).1.cache := by
    rw [damon_pa_prepare_access_checks]
    exact coherent_prepareTargets pm rng ts _
      (coherent_roundBegin pm st.cache hfresh)
  obtain ⟨hmap, _, hmx⟩ := checkTargetsFl_spec pm sched hhuge
    (damon_pa_prepare_access_checks rng st ts).2 0
    (damon_pa_prepare_access_checks rng st ts).1 0 hco
  refine ⟨hprep, ?_, ?_⟩
  · rw [damon_pa_check_accesses_flushed, hmap, hprep]
  · rw [damon_pa_check_accesses_flushed, hmx, hprep]
    rfl

/-- Witness for `cache_transparent`: the no-pages oracle (vacuously
huge-consistent), the pristine state, one region pinned to frame 3,
and the never-invalidate schedule. -/
theorem cache_transparent_witness :
    (damon_pa_prepare_access_checks rngZero initState
      [[pinnedRegion 3]]).2 =
      specPrepareTargets rngZero [[pinnedRegion 3]] initState.rngIdx ∧
    (damon_pa_check_accesses_flushed pmNone (fun _ => false)
      (damon_pa_prepare_access_checks rngZero initState
        [[pinnedRegion 3]]).1
      (damon_pa_prepare_access_checks rngZero initState
        [[pinnedRegion 3]]).2).2.2.1 =
      specCheckTargets pmNone
        (specPrepareTargets rngZero [[pinnedRegion 3]] initState.rngIdx) :=
  ⟨(cache_transparent pmNone rngZero (fun _ => false) initState
      [[pinnedRegion 3]]
      (fun pfn h => absurd h (by simp [youngOnPfn, pmNone]))
      (fun i => by
        rw [show initState.cache.slots =
          List.replicate DAMON_PA_CACHE_SIZE zeroEnt from rfl,
          getD_initSlots]
        decide)).1,
   (cache_transparent pmNone rngZero (fun _ => false) initState
      [[pinnedRegion 3]]
      (fun pfn h => absurd h (by simp [youngOnPfn, pmNone]))
      (fun i => by
        rw [show initState.cache.slots =
          List.replicate DAMON_PA_CACHE_SIZE zeroEnt from rfl,
          getD_initSlots]
        decide)).2.1⟩
end DamonPA
